import Mathlib

/-!
Verification of nupic.cpp: the SDRClassifier, the VectorHelpers utilities, Scalar and Value.

A shallow embedding of `src/nupic/algorithms/SDRClassifier.hpp`, of
`src/nupic/utils/VectorHelpers.hpp`, of `src/nupic/ntypes/Scalar.cpp` and of the
serialization functions of `src/nupic/ntypes/Value.hpp`.

The header declares the data members, the constants `sdrClassifierVersion` and
`ACTUAL_VALUES`, the `Matrix` type, and defines `save_ar` / `load_ar` inline.  The bodies
of the other member functions live in `SDRClassifier.cpp`, which is not part of the
sources at hand; those functions are modelled from the written specification and every
such definition says so in its doc comment.

`Real64` values are modelled by an arbitrary linearly ordered field `K` (executable for
`K = ℚ`), and `std::exp` is a parameter `expf : K → K`.
-/

set_option linter.unusedVariables false

namespace nupic

/-! ## `std::map` as a key-ordered association list -/

/-- Lookup of key `k` (`std::map::find`): the stored value, or `none`; never allocates. -/
def mapFind {κ V : Type} [DecidableEq κ] (k : κ) : List (κ × V) → Option V
  | [] => none
  | (k', v) :: rest => if k = k' then some v else mapFind k rest

/-- Assignment `m[k] = v` (`std::map::operator[]` followed by a store): replaces the value
of an existing key, otherwise allocates a new entry at its place in key order. -/
def mapInsert {κ V : Type} [LinearOrder κ] (k : κ) (v : V) : List (κ × V) → List (κ × V)
  | [] => [(k, v)]
  | (k', v') :: rest =>
    if k < k' then (k, v) :: (k', v') :: rest
    else if k = k' then (k, v) :: rest
    else (k', v') :: mapInsert k v rest

/-! ## Data model (from the header) -/

/-- The constant `sdrClassifierVersion` of the header. -/
def sdrClassifierVersion : Nat := 2

/-- The type `PDF = std::vector<Real64>`. -/
abbrev PDF (K : Type) := List K

/-- The constant `ACTUAL_VALUES` of the header: the reserved result key. -/
def ACTUAL_VALUES : Int := -1

/-- The type `ClassifierResult = std::map<Int, PDF>`. -/
abbrev ClassifierResult (K : Type) := List (Int × PDF K)

/-- The type `Matrix = std::map<UInt, std::map<UInt, Real64>>`. -/
abbrev Matrix (K : Type) := List (Nat × List (Nat × K))

/-- The data members of `class SDRClassifier`, in the order of the header.
`maxBucketIdx_` is `none` while no bucket has been observed (the specification's
"undefined" `maxBucketIdx`). -/
structure SDRClassifier (K : Type) where
  steps_ : List Nat
  alpha_ : K
  actValueAlpha_ : K
  maxSteps_ : Nat
  patternNZHistory_ : List (List Nat)
  recordNumHistory_ : List Nat
  weightMatrix_ : List (Nat × Matrix K)
  maxInputIdx_ : Nat
  maxBucketIdx_ : Option Nat
  actualValues_ : List K
  actualValuesSet_ : List Bool
  version_ : Nat
  verbosity_ : Nat

/-! ## Softmax and classification -/

/-- Modelled from the spec: the body of `SDRClassifier::softmax_` is missing (section 4.6).
Subtract the maximum element from all elements, exponentiate, sum, divide each by the
sum.  The empty range is left as it is. -/
def softmax_ {K : Type} [LinearOrderedField K] (expf : K → K) (xs : List K) : List K :=
  match xs with
  | [] => []
  | x :: rest =>
    let maxVal := rest.foldl max x
    let es := (x :: rest).map (fun v => expf (v - maxVal))
    let s := es.sum
    es.map (fun e => e / s)

/-- The ascending scan of `getClassification`: `i` is the next index, `bi` the index of
the best value `bv` seen so far; a later value wins only when it is strictly greater. -/
def argmaxScan {K : Type} [LinearOrder K] : List K → Nat → Nat → K → Nat
  | [], _, bi, _ => bi
  | y :: ys, i, bi, bv => if bv < y then argmaxScan ys (i + 1) i y else argmaxScan ys (i + 1) bi bv

/-- Modelled from the spec: the body of `SDRClassifier::getClassification` is missing
(section 4.7).  The index of the maximum-probability bucket; the lowest index among
maximal values wins (first-encountered-wins under an ascending scan). -/
def getClassification {K : Type} [LinearOrder K] (pdf : PDF K) : Nat :=
  match pdf with
  | [] => 0
  | x :: rest => argmaxScan rest 1 0 x

/-! ## Sparse weight store -/

/-- Modelled from the spec: the body of `SDRClassifier::get_` is missing (section 4.2 and
the doc comment of its declaration).  Returns the value stored at `m[row][col]`, or
`defaultVal` if such a field does not exist.  The matrix is passed by const reference;
the second component is the matrix after the call. -/
def get_ {K : Type} (m : Matrix K) (row col : Nat) (defaultVal : K) : K × Matrix K :=
  match mapFind row m with
  | none => (defaultVal, m)
  | some r =>
    match mapFind col r with
    | none => (defaultVal, m)
    | some w => (w, m)

/-- Modelled from the spec: `read(step, bit, bucket)` of section 4.2, the stored weight of
the step's matrix or 0.0. -/
def readWeight {K : Type} [LinearOrderedField K] (w : List (Nat × Matrix K))
    (step bit bucket : Nat) : K :=
  match mapFind step w with
  | none => 0
  | some m => (get_ m bit bucket 0).1

/-- Modelled from the spec: the store part of `accumulate(step, bit, bucket, delta)` of
section 4.2: adds `delta` to the stored weight, creating the entry (0.0 before the add)
if absent. -/
def accumulateW {K : Type} [LinearOrderedField K] (w : List (Nat × Matrix K))
    (step bit bucket : Nat) (delta : K) : List (Nat × Matrix K) :=
  let m := (mapFind step w).getD []
  let row := (mapFind bit m).getD []
  let old := (mapFind bucket row).getD 0
  mapInsert step (mapInsert bit (mapInsert bucket (old + delta) row) m) w

/-- Number of buckets in the universe `[0, maxBucketIdx]`; 0 while it is undefined. -/
def numBuckets {K : Type} (c : SDRClassifier K) : Nat :=
  match c.maxBucketIdx_ with
  | none => 0
  | some m => m + 1

/-- Modelled from the spec: growth of the bucket universe (sections 3 and 4.3): the
maximum is extended to cover `bucket` and both actual-value arrays are extended with the
defaults 0.0 / false. -/
def growBuckets {K : Type} [LinearOrderedField K] (c : SDRClassifier K) (bucket : Nat) :
    SDRClassifier K :=
  let newMax := match c.maxBucketIdx_ with
    | none => bucket
    | some m => max m bucket
  { c with
    maxBucketIdx_ := some newMax
    actualValues_ := c.actualValues_ ++ List.replicate (newMax + 1 - c.actualValues_.length) 0
    actualValuesSet_ :=
      c.actualValuesSet_ ++ List.replicate (newMax + 1 - c.actualValuesSet_.length) false }

/-- Modelled from the spec: `accumulate(step, bit, bucket, delta)` of section 4.2 with its
side effect on `maxInputIdx` / `maxBucketIdx`. -/
def accumulate {K : Type} [LinearOrderedField K] (c : SDRClassifier K)
    (step bit bucket : Nat) (delta : K) : SDRClassifier K :=
  let c1 := growBuckets c bucket
  { c1 with
    weightMatrix_ := accumulateW c1.weightMatrix_ step bit bucket delta
    maxInputIdx_ := max c1.maxInputIdx_ bit }

/-! ## Actual-value tracker -/

/-- Modelled from the spec: `observe(bucket, value)` of section 4.3.  If the bucket has not
been set, stores `value` directly and marks it set; otherwise applies the exponential
decay.  The `category` flag is advisory and does not enter the arithmetic. -/
def observe {K : Type} [LinearOrderedField K] (c : SDRClassifier K) (bucket : Nat)
    (value : K) (category : Bool) : SDRClassifier K :=
  let c1 := growBuckets c bucket
  if c1.actualValuesSet_.getD bucket false then
    { c1 with
      actualValues_ := c1.actualValues_.set bucket
        ((1 - c1.actValueAlpha_) * c1.actualValues_.getD bucket 0 + c1.actValueAlpha_ * value) }
  else
    { c1 with
      actualValues_ := c1.actualValues_.set bucket value
      actualValuesSet_ := c1.actualValuesSet_.set bucket true }

/-- Modelled from the spec: `snapshot()` of section 4.3, the full vector of values, sized
`maxBucketIdx + 1`. -/
def snapshot {K : Type} [LinearOrderedField K] (c : SDRClassifier K) : List K :=
  (List.range (numBuckets c)).map (fun b => c.actualValues_.getD b 0)

/-! ## Bounded history buffer -/

/-- Modelled from the spec: `record(recordNumber, pattern)` of section 4.1: appends to the
back, evicting the oldest entry once the size exceeds the capacity `maxSteps_`. -/
def record {K : Type} (c : SDRClassifier K) (recordNum : Nat) (patternNZ : List Nat) :
    SDRClassifier K :=
  let pn := c.patternNZHistory_ ++ [patternNZ]
  let rn := c.recordNumHistory_ ++ [recordNum]
  if pn.length > c.maxSteps_ then
    { c with patternNZHistory_ := pn.tail, recordNumHistory_ := rn.tail }
  else
    { c with patternNZHistory_ := pn, recordNumHistory_ := rn }

/-- Modelled from the spec: `lookup(step, currentRecordNumber)` of section 4.1: the pattern
of the entry whose record number equals `currentRecordNumber - step`, or no match. -/
def lookup {K : Type} (c : SDRClassifier K) (step recordNum : Nat) : Option (List Nat) :=
  match (c.recordNumHistory_.zip c.patternNZHistory_).find?
      (fun e => decide ((e.1 : Int) = (recordNum : Int) - (step : Int))) with
  | some e => some e.2
  | none => none

/-! ## Learner and inferencer -/

/-- Modelled from the spec: the raw scores of section 4.5: for every bucket in
`[0, maxBucketIdx]` the sum of the weights read for each active bit of the pattern. -/
def scores {K : Type} [LinearOrderedField K] (c : SDRClassifier K) (step : Nat)
    (patternNZ : List Nat) : List K :=
  (List.range (numBuckets c)).map
    (fun b => (patternNZ.map (fun bit => readWeight c.weightMatrix_ step bit b)).sum)

/-- Modelled from the spec: the target distribution of section 4.4 item 3: one-hot for a
single bucket index, multi-hot normalized for several. -/
def targetDistribution {K : Type} [LinearOrderedField K] (c : SDRClassifier K)
    (bucketIdxList : List Nat) : List K :=
  (List.range (numBuckets c)).map
    (fun b => if b ∈ bucketIdxList then 1 / (bucketIdxList.length : K) else 0)

/-- Modelled from the spec: the body of `SDRClassifier::calculateError_` is missing
(section 4.4 items 2 to 4): `error[b] = target[b] - predicted[b]`, where `predicted` is the
softmax of the scores of the current weights over the historical pattern. -/
def calculateError_ {K : Type} [LinearOrderedField K] (expf : K → K) (c : SDRClassifier K)
    (bucketIdxList : List Nat) (patternNZ : List Nat) (step : Nat) : List K :=
  List.zipWith (fun t p => t - p) (targetDistribution c bucketIdxList)
    (softmax_ expf (scores c step patternNZ))

/-- Modelled from the spec: the weight update of section 4.4 items 2 to 5 for one step and
its historical pattern: for every active bit of the pattern and every bucket,
`alpha * error[bucket]` is accumulated into the weight store. -/
def applyError {K : Type} [LinearOrderedField K] (expf : K → K) (c : SDRClassifier K)
    (bucketIdxList : List Nat) (step : Nat) (pattern : List Nat) : SDRClassifier K :=
  let error := calculateError_ expf c bucketIdxList pattern step
  let alpha := c.alpha_
  pattern.foldl (fun c1 bit =>
    (List.range error.length).foldl
      (fun c2 b => accumulate c2 step bit b (alpha * error.getD b 0)) c1) c

/-- Modelled from the spec: the per-step learning of section 4.4 item 1: the historical
pattern is looked up in the history buffer; no match, and the step is skipped. -/
def learnStep {K : Type} [LinearOrderedField K] (expf : K → K) (c : SDRClassifier K)
    (recordNum : Nat) (bucketIdxList : List Nat) (step : Nat) : SDRClassifier K :=
  match lookup c step recordNum with
  | none => c
  | some pattern => applyError expf c bucketIdxList step pattern

/-- Modelled from the spec: the Learner of section 4.4: the bucket universe grows to the
supplied bucket indices, every configured step is learned, and every supplied
(bucket, actualValue) pair is observed by the actual-value tracker. -/
def learn_ {K : Type} [LinearOrderedField K] (expf : K → K) (c : SDRClassifier K)
    (recordNum : Nat) (bucketIdxList : List Nat) (actValueList : List K) (category : Bool) :
    SDRClassifier K :=
  let c1 := bucketIdxList.foldl growBuckets c
  let c2 := c1.steps_.foldl (fun d s => learnStep expf d recordNum bucketIdxList s) c1
  (bucketIdxList.zip actValueList).foldl (fun d p => observe d p.1 p.2 category) c2

/-- Modelled from the spec: the body of `SDRClassifier::infer_` is missing (section 4.5):
for each configured step the softmax of the scores of the current pattern is stored under
the step's key, and the actual-value snapshot under the reserved key, for which the
header declares the constant `ACTUAL_VALUES`. -/
def infer_ {K : Type} [LinearOrderedField K] (expf : K → K) (c : SDRClassifier K)
    (patternNZ : List Nat) (actValue : List K) (result : ClassifierResult K) :
    ClassifierResult K :=
  let r1 := c.steps_.foldl
    (fun (r : ClassifierResult K) (s : Nat) =>
      mapInsert (s : Int) (softmax_ expf (scores c s patternNZ)) r) result
  mapInsert ACTUAL_VALUES (snapshot c) r1

/-- Modelled from the spec: the body of `SDRClassifier::compute` is missing (sections 2, 6
and 7).  Mismatched `bucketIdxList` / `actValueList` is a usage error; otherwise the
history buffer is updated first, then the Learner runs (if requested), then the
Inferencer (if requested) fills `result`. -/
def compute {K : Type} [LinearOrderedField K] (expf : K → K) (c : SDRClassifier K)
    (recordNum : Nat) (patternNZ : List Nat) (bucketIdxList : List Nat)
    (actValueList : List K) (category learn infer : Bool) (result : ClassifierResult K) :
    Except String (SDRClassifier K × ClassifierResult K) :=
  if bucketIdxList.length ≠ actValueList.length then
    Except.error "bucketIdxList and actValueList differ in size"
  else
    let c1 := record c recordNum patternNZ
    let c2 := if learn then learn_ expf c1 recordNum bucketIdxList actValueList category else c1
    let r := if infer then infer_ expf c2 patternNZ actValueList result else result
    Except.ok (c2, r)

/-- Modelled from the spec: the body of `SDRClassifier::initialize` is missing (sections 3,
4.1 and 7); the source's name is a reserved word here.  An empty step list or a step of zero is a usage error; the history capacity
is `max(steps) + 1`. -/
def initClassifier {K : Type} [LinearOrderedField K] (steps : List Nat) (alpha actValueAlpha : K)
    (verbosity : Nat) : Except String (SDRClassifier K) :=
  if steps = [] ∨ 0 ∈ steps then
    Except.error "invalid step configuration"
  else
    Except.ok
      { steps_ := steps
        alpha_ := alpha
        actValueAlpha_ := actValueAlpha
        maxSteps_ := steps.foldl max 0 + 1
        patternNZHistory_ := []
        recordNumHistory_ := []
        weightMatrix_ := []
        maxInputIdx_ := 0
        maxBucketIdx_ := none
        actualValues_ := []
        actualValuesSet_ := []
        version_ := sdrClassifierVersion
        verbosity_ := verbosity }

/-- The arguments of one `compute` call. -/
structure Call (K : Type) where
  recordNum : Nat
  patternNZ : List Nat
  bucketIdxList : List Nat
  actValueList : List K
  category : Bool
  learn : Bool
  infer : Bool

/-- A sequence of `compute` calls on one instance; a failing call ends the run. -/
def runCalls {K : Type} [LinearOrderedField K] (expf : K → K) :
    SDRClassifier K → List (Call K) → Except String (SDRClassifier K)
  | c, [] => Except.ok c
  | c, a :: rest =>
    match compute expf c a.recordNum a.patternNZ a.bucketIdxList a.actValueList
        a.category a.learn a.infer [] with
    | Except.error e => Except.error e
    | Except.ok (c1, _) => runCalls expf c1 rest

/-! ## Persistence (from the header) -/

/-- One value written to a Cereal archive, by the type of the archived member. -/
inductive Item (K : Type) where
  | real (x : K)
  | uint (n : Nat)
  | optUInt (n : Option Nat)
  | uintSeq (xs : List Nat)
  | patternSeq (xs : List (List Nat))
  | weights (w : List (Nat × Matrix K))
  | realSeq (xs : List K)
  | boolSeq (xs : List Bool)

/-- The function `SDRClassifier::save_ar`: the twelve archived members, in order. -/
def save_ar {K : Type} (c : SDRClassifier K) : List (Item K) :=
  [ Item.real c.alpha_,
    Item.real c.actValueAlpha_,
    Item.uint c.maxSteps_,
    Item.optUInt c.maxBucketIdx_,
    Item.uint c.maxInputIdx_,
    Item.uint c.verbosity_,
    Item.uintSeq c.recordNumHistory_,
    Item.uintSeq c.steps_,
    Item.patternSeq c.patternNZHistory_,
    Item.weights c.weightMatrix_,
    Item.realSeq c.actualValues_,
    Item.boolSeq c.actualValuesSet_ ]

/-- The function `SDRClassifier::load_ar`, called on the instance `self`: reads the twelve
archived members in order; an archive of another shape makes the read fail.  Members that
are not archived keep the value they have in `self`. -/
def load_ar {K : Type} (ar : List (Item K)) (self : SDRClassifier K) :
    Option (SDRClassifier K) :=
  match ar with
  | [ Item.real alpha, Item.real actValueAlpha, Item.uint maxSteps,
      Item.optUInt maxBucketIdx, Item.uint maxInputIdx, Item.uint verbosity,
      Item.uintSeq recordNumHistory, Item.uintSeq steps, Item.patternSeq patternNZHistory,
      Item.weights weightMatrix, Item.realSeq actualValues,
      Item.boolSeq actualValuesSet ] =>
    some
      { self with
        alpha_ := alpha
        actValueAlpha_ := actValueAlpha
        maxSteps_ := maxSteps
        maxBucketIdx_ := maxBucketIdx
        maxInputIdx_ := maxInputIdx
        verbosity_ := verbosity
        recordNumHistory_ := recordNumHistory
        steps_ := steps
        patternNZHistory_ := patternNZHistory
        weightMatrix_ := weightMatrix
        actualValues_ := actualValues
        actualValuesSet_ := actualValuesSet }
  | _ => none

/-- Modelled from the spec: the body of `SDRClassifier::operator==` is missing
(section 4.8): equality holds iff learning rate, decay rate, configured steps, history
buffer, all weight matrices, actual-value arrays and flags, and verbosity are
field-wise equal. -/
def operator_eq {K : Type} [DecidableEq K] (a b : SDRClassifier K) : Bool :=
  decide (a.alpha_ = b.alpha_) && decide (a.actValueAlpha_ = b.actValueAlpha_) &&
  decide (a.steps_ = b.steps_) &&
  decide (a.patternNZHistory_ = b.patternNZHistory_) &&
  decide (a.recordNumHistory_ = b.recordNumHistory_) &&
  decide (a.weightMatrix_ = b.weightMatrix_) &&
  decide (a.actualValues_ = b.actualValues_) &&
  decide (a.actualValuesSet_ = b.actualValuesSet_) &&
  decide (a.verbosity_ = b.verbosity_)

/-- A positive stand-in for `std::exp` on the rationals: two to the floor of the
argument. -/
def expQ (x : ℚ) : ℚ := 2 ^ ⌊x⌋

/-! ## Auxiliary definitions used in the statements and proofs -/

/-- The members that only `initialize`, `record` and deserialization write. -/
def fixedPart {K : Type} (c : SDRClassifier K) :
    List Nat × K × K × Nat × List (List Nat) × List Nat × Nat × Nat :=
  (c.steps_, c.alpha_, c.actValueAlpha_, c.maxSteps_, c.patternNZHistory_,
    c.recordNumHistory_, c.version_, c.verbosity_)

/-- The state after a `compute` call that passes the size check. -/
def stateAfter {K : Type} [LinearOrderedField K] (expf : K → K) (c : SDRClassifier K)
    (recordNum : Nat) (patternNZ : List Nat) (bucketIdxList : List Nat)
    (actValueList : List K) (category learn : Bool) : SDRClassifier K :=
  if learn then learn_ expf (record c recordNum patternNZ) recordNum bucketIdxList
    actValueList category
  else record c recordNum patternNZ

/-- Index `r` holds a first maximum of `l`: it is inside `l`, no entry of `l` is above the
value at `r`, and every entry before `r` is strictly below it. -/
def IsFirstMax {K : Type} [LinearOrder K] (l : List K) (r : Nat) : Prop :=
  ∃ v, l[r]? = some v ∧ (∀ (j : Nat) (w : K), l[j]? = some w → w ≤ v) ∧
    (∀ (j : Nat) (w : K), j < r → l[j]? = some w → w < v)

/-- The actual-value arrays read with their defaults 0.0 / false, and the decay rate. -/
def avPart {K : Type} [LinearOrderedField K] (c : SDRClassifier K) :
    (Nat → K) × (Nat → Bool) × K :=
  (fun b => c.actualValues_.getD b 0, fun b => c.actualValuesSet_.getD b false,
    c.actValueAlpha_)

/-- The last `cap` entries of a sequence. -/
def keepLast {α : Type} (cap : Nat) (l : List α) : List α := l.drop (l.length - cap)

/-- Three calls fed to a classifier with steps `[1]`. -/
def threeCalls : List (Call ℚ) :=
  [ { recordNum := 0, patternNZ := [1, 3], bucketIdxList := [0], actValueList := [0],
      category := false, learn := false, infer := false },
    { recordNum := 1, patternNZ := [2, 4], bucketIdxList := [1], actValueList := [1],
      category := false, learn := false, infer := false },
    { recordNum := 2, patternNZ := [5], bucketIdxList := [1], actValueList := [1],
      category := false, learn := false, infer := false } ]

/-- The state `initialize([1], 0.1, 0.3, 0)` returns. -/
def freshQ : SDRClassifier ℚ :=
  { steps_ := [1], alpha_ := 1 / 10, actValueAlpha_ := 3 / 10, maxSteps_ := 2,
    patternNZHistory_ := [], recordNumHistory_ := [], weightMatrix_ := [],
    maxInputIdx_ := 0, maxBucketIdx_ := none, actualValues_ := [], actualValuesSet_ := [],
    version_ := 2, verbosity_ := 0 }

/-- The state of the end-to-end scenario when step 1 is learned at record 1: record 0 with
pattern `{1,3}` is in the history and buckets 0 and 1 are known. -/
def matchedQ : SDRClassifier ℚ :=
  { freshQ with
    patternNZHistory_ := [[1, 3], [2, 4]], recordNumHistory_ := [0, 1],
    maxBucketIdx_ := some 1, actualValues_ := [0, 0], actualValuesSet_ := [true, false] }

/-- Two states agree on what the learning of step `s` reads. -/
def SameAt {K : Type} (s : Nat) (d d2 : SDRClassifier K) : Prop :=
  fixedPart d = fixedPart d2 ∧ mapFind s d.weightMatrix_ = mapFind s d2.weightMatrix_ ∧
    numBuckets d = numBuckets d2

/-- The state in which the configured steps are learned: the history holds this call's
record and the bucket universe covers the supplied bucket indices. -/
def beforeSteps {K : Type} [LinearOrderedField K] (c : SDRClassifier K) (recordNum : Nat)
    (patternNZ : List Nat) (bucketIdxList : List Nat) : SDRClassifier K :=
  bucketIdxList.foldl growBuckets (record c recordNum patternNZ)

/-! ## VectorHelpers (from `src/nupic/utils/VectorHelpers.hpp`)

Index and cell vectors hold `UInt` values, modelled by `Nat`; vector sizes are taken to fit
the index type.  `NTA_CHECK(cond)` throws when `cond` is false. -/

/-- The function `VectorHelpers::binaryToSparse`: the indices, in loop order, at which the
vector holds `(T)1`. -/
def binaryToSparse {T : Type} [DecidableEq T] [One T] (binaryVector : List T) : List Nat :=
  (List.range binaryVector.length).foldl
    (fun sparse index => if binaryVector[index]? = some 1 then sparse ++ [index] else sparse) []

/-- The loop of `VectorHelpers::sparseToBinary`: `binary[sparseIdx] = (T)1` for each index;
a write outside of `binary` is undefined behaviour and yields `none`. -/
def sparseToBinaryLoop {T : Type} [One T] (width : Nat) : List Nat → List T → Option (List T)
  | [], binary => some binary
  | sparseIdx :: rest, binary =>
    if sparseIdx < width then sparseToBinaryLoop width rest (binary.set sparseIdx 1) else none

/-- The function `VectorHelpers::sparseToBinary`: starts from `width` zeros. -/
def sparseToBinary {T : Type} [Zero T] [One T] (sparseVector : List Nat) (width : Nat) :
    Option (List T) :=
  sparseToBinaryLoop width sparseVector (List.replicate width 0)

/-- How a run of `cellsToColumns` can go wrong: a read outside of the vector, or a loop
that never ends. -/
inductive Fault where
  | outOfRange
  | diverges
  deriving DecidableEq, Repr

/-- The inner loop of `VectorHelpers::cellsToColumns`: `n` iterations are left,
`active |= cellsBinary[i + inColumn]` in each. -/
def columnLoop (cellsBinary : List Nat) (i : Nat) : Nat → Nat → Nat → Except Fault Nat
  | 0, _, active => Except.ok active
  | n + 1, inColumn, active =>
    match cellsBinary[i + inColumn]? with
    | none => Except.error Fault.outOfRange
    | some cell => columnLoop cellsBinary i n (inColumn + 1) (active ||| cell)

/-- The outer loop of `VectorHelpers::cellsToColumns`, `for (i = 0; i < size; i += cellsPerColumn)`,
run with a bound on the number of iterations; the bound is used up only by a loop that
does not end. -/
def cellsLoop (cellsBinary : List Nat) (cellsPerColumn : Nat) :
    Nat → Nat → List Nat → Except Fault (List Nat)
  | 0, i, activeColumns =>
    if i < cellsBinary.length then Except.error Fault.diverges else Except.ok activeColumns
  | fuel + 1, i, activeColumns =>
    if i < cellsBinary.length then
      match columnLoop cellsBinary i cellsPerColumn 0 0 with
      | Except.error e => Except.error e
      | Except.ok active =>
        cellsLoop cellsBinary cellsPerColumn fuel (i + cellsPerColumn) (activeColumns ++ [active])
    else Except.ok activeColumns

/-- The function `VectorHelpers::cellsToColumns`.  When `i` advances, `size` iterations
are enough to pass the end of the vector. -/
def cellsToColumns (cellsBinary : List Nat) (cellsPerColumn : Nat) : Except Fault (List Nat) :=
  cellsLoop cellsBinary cellsPerColumn cellsBinary.length 0 []

/-- The loop of `VectorHelpers::sparse_cellsToColumns` over the cells, with `prev` and the
columns pushed so far; `maxT` is `std::numeric_limits<T>::max()`. -/
def sparseColumnsLoop (maxT cellsPerColumn : Nat) :
    List Nat → Nat → List Nat → Except String (List Nat)
  | [], _, activeColumns => Except.ok activeColumns
  | cellIdx :: rest, prev, activeColumns =>
    if cellIdx / cellsPerColumn ≠ prev then
      if prev < cellIdx / cellsPerColumn ∨ prev = maxT then
        sparseColumnsLoop maxT cellsPerColumn rest (cellIdx / cellsPerColumn)
          (activeColumns ++ [cellIdx / cellsPerColumn])
      else Except.error "Cell indexes not sorted"
    else sparseColumnsLoop maxT cellsPerColumn rest prev activeColumns

/-- The function `VectorHelpers::sparse_cellsToColumns<T>` for an unsigned `T` with largest
value `maxT`. -/
def sparse_cellsToColumns (maxT : Nat) (cellsSparse : List Nat) (cellsPerColumn : Nat) :
    Except String (List Nat) :=
  if cellsSparse = [] then Except.ok []
  else if ¬ (cellsPerColumn > 0) then Except.error "CHECK FAILED: cellsPerColumn > 0"
  else sparseColumnsLoop maxT cellsPerColumn cellsSparse maxT []

/-- The largest value of `UInt` (32 bits), the `T` of the unit tests. -/
def maxUInt : Nat := 4294967295

/-- The algorithm `std::set_union` on two ranges: the sequence it writes. -/
def set_union : List Nat → List Nat → List Nat
  | [], ys => ys
  | x :: xs, [] => x :: xs
  | x :: xs, y :: ys =>
    if y < x then y :: set_union (x :: xs) ys
    else if x < y then x :: set_union xs (y :: ys)
    else x :: set_union xs ys

/-- The call `std::vector::resize(n)`: truncates, or pads with zeros. -/
def resize (v : List Nat) (n : Nat) : List Nat := v.take n ++ List.replicate (n - v.length) 0

/-- The function `VectorHelpers::unionOfVectors`: `out` is resized to hold both inputs,
`std::set_union` writes from `out.begin()`, and `out` is cut at the returned iterator. -/
def unionOfVectors (out v1 v2 : List Nat) : List Nat :=
  let out1 := resize out (v1.length + v2.length)
  let written := set_union v1 v2
  let out2 := written ++ out1.drop written.length
  resize out2 written.length

/-- The OR of the `n` cells starting at index `start`. -/
def orOfCells (cellsBinary : List Nat) (start n : Nat) : Nat :=
  ((cellsBinary.drop start).take n).foldl (fun a b => a ||| b) 0

/-! ## Scalar (from `src/nupic/ntypes/Scalar.cpp`)

`Real32` / `Real64` values are an arbitrary type `R`, compared by a parameter `feq` (the
floating-point `==`, which need not be reflexive). -/

/-- The enumeration `NTA_BasicType` (declared outside of the sources at hand): the eleven
types named in `Scalar.cpp`, and `Other` for any further enumerator. -/
inductive NTA_BasicType where
  | Byte
  | Int16
  | UInt16
  | Int32
  | UInt32
  | Int64
  | UInt64
  | Real32
  | Real64
  | Handle
  | Bool
  | Other (code : Nat)
  deriving DecidableEq, Repr

/-- The members of the union `Scalar::value` that `Scalar.cpp` reads, one field per member;
the sharing of storage between the members is not modelled. -/
structure ScalarValue (R : Type) where
  handle : Nat
  byte : Int
  int16 : Int
  uint16 : Nat
  int32 : Int
  uint32 : Nat
  int64 : Int
  uint64 : Nat
  real32 : R
  real64 : R
  boolean : Bool

/-- The data of `class Scalar`: its type tag and the public member `value`. -/
structure Scalar (R : Type) where
  theType_ : NTA_BasicType
  value : ScalarValue R

/-- The constructor `Scalar::Scalar(NTA_BasicType)`: sets the type and `value.uint64 = 0`,
which zeroes the storage of every member. -/
def Scalar.create {R : Type} [Zero R] (theTypeParam : NTA_BasicType) : Scalar R :=
  { theType_ := theTypeParam
    value := { handle := 0, byte := 0, int16 := 0, uint16 := 0, int32 := 0, uint32 := 0,
               int64 := 0, uint64 := 0, real32 := 0, real64 := 0, boolean := false } }

/-- The function `Scalar::getType`. -/
def Scalar.getType {R : Type} (s : Scalar R) : NTA_BasicType := s.theType_

/-- The pattern `NTA_CHECK(theType_ == t); return v;` of every `getValue<T>`
specialization: the check throws when the types differ. -/
def checkedValue {R α : Type} (s : Scalar R) (t : NTA_BasicType) (v : α) : Except String α :=
  if s.theType_ = t then Except.ok v else Except.error "CHECK FAILED: theType_ == type of T"

/-- The specialization `Scalar::getValue<Handle>`. -/
def Scalar.getValue_Handle {R : Type} (s : Scalar R) : Except String Nat :=
  checkedValue s NTA_BasicType.Handle s.value.handle

/-- The specialization `Scalar::getValue<Byte>`. -/
def Scalar.getValue_Byte {R : Type} (s : Scalar R) : Except String Int :=
  checkedValue s NTA_BasicType.Byte s.value.byte

/-- The specialization `Scalar::getValue<UInt16>`. -/
def Scalar.getValue_UInt16 {R : Type} (s : Scalar R) : Except String Nat :=
  checkedValue s NTA_BasicType.UInt16 s.value.uint16

/-- The specialization `Scalar::getValue<Int16>`. -/
def Scalar.getValue_Int16 {R : Type} (s : Scalar R) : Except String Int :=
  checkedValue s NTA_BasicType.Int16 s.value.int16

/-- The specialization `Scalar::getValue<UInt32>`. -/
def Scalar.getValue_UInt32 {R : Type} (s : Scalar R) : Except String Nat :=
  checkedValue s NTA_BasicType.UInt32 s.value.uint32

/-- The specialization `Scalar::getValue<Int32>`. -/
def Scalar.getValue_Int32 {R : Type} (s : Scalar R) : Except String Int :=
  checkedValue s NTA_BasicType.Int32 s.value.int32

/-- The specialization `Scalar::getValue<UInt64>`. -/
def Scalar.getValue_UInt64 {R : Type} (s : Scalar R) : Except String Nat :=
  checkedValue s NTA_BasicType.UInt64 s.value.uint64

/-- The specialization `Scalar::getValue<Int64>`. -/
def Scalar.getValue_Int64 {R : Type} (s : Scalar R) : Except String Int :=
  checkedValue s NTA_BasicType.Int64 s.value.int64

/-- The specialization `Scalar::getValue<Real32>`. -/
def Scalar.getValue_Real32 {R : Type} (s : Scalar R) : Except String R :=
  checkedValue s NTA_BasicType.Real32 s.value.real32

/-- The specialization `Scalar::getValue<Real64>`. -/
def Scalar.getValue_Real64 {R : Type} (s : Scalar R) : Except String R :=
  checkedValue s NTA_BasicType.Real64 s.value.real64

/-- The specialization `Scalar::getValue<bool>`. -/
def Scalar.getValue_bool {R : Type} (s : Scalar R) : Except String Bool :=
  checkedValue s NTA_BasicType.Bool s.value.boolean

/-- The comparison `lhs == rhs.getValue<T>()` in a `return`: an exception of the call
propagates. -/
def compareWith {α : Type} (eq : α → α → Bool) (lhs : α) (rhs : Except String α) :
    Except String Bool :=
  match rhs with
  | Except.error e => Except.error e
  | Except.ok v => Except.ok (eq lhs v)

/-- The function `Scalar::operator==`: `false` on different types, otherwise the switch over
`theType_`; a type without a case falls to `default` and the final `return false`. -/
def Scalar.operator_eq {R : Type} (feq : R → R → Bool) (a rhs : Scalar R) :
    Except String Bool :=
  if a.theType_ ≠ rhs.getType then Except.ok false
  else
    match a.theType_ with
    | NTA_BasicType.Byte => compareWith (fun x y => decide (x = y)) a.value.byte rhs.getValue_Byte
    | NTA_BasicType.Int16 =>
      compareWith (fun x y => decide (x = y)) a.value.int16 rhs.getValue_Int16
    | NTA_BasicType.UInt16 =>
      compareWith (fun x y => decide (x = y)) a.value.uint16 rhs.getValue_UInt16
    | NTA_BasicType.Int32 =>
      compareWith (fun x y => decide (x = y)) a.value.int32 rhs.getValue_Int32
    | NTA_BasicType.UInt32 =>
      compareWith (fun x y => decide (x = y)) a.value.uint32 rhs.getValue_UInt32
    | NTA_BasicType.Int64 =>
      compareWith (fun x y => decide (x = y)) a.value.int64 rhs.getValue_Int64
    | NTA_BasicType.UInt64 =>
      compareWith (fun x y => decide (x = y)) a.value.uint64 rhs.getValue_UInt64
    | NTA_BasicType.Real32 => compareWith feq a.value.real32 rhs.getValue_Real32
    | NTA_BasicType.Real64 => compareWith feq a.value.real64 rhs.getValue_Real64
    | NTA_BasicType.Bool =>
      compareWith (fun x y => decide (x = y)) a.value.boolean rhs.getValue_bool
    | _ => Except.ok false

/-- Equality of the values stored for the type of `a`, as a comparison of contents would
give it for each of the eleven value types; `false` for a type that stores no value. -/
def Scalar.sameStoredValue {R : Type} (feq : R → R → Bool) (a b : Scalar R) : Bool :=
  match a.theType_ with
  | NTA_BasicType.Byte => decide (a.value.byte = b.value.byte)
  | NTA_BasicType.Int16 => decide (a.value.int16 = b.value.int16)
  | NTA_BasicType.UInt16 => decide (a.value.uint16 = b.value.uint16)
  | NTA_BasicType.Int32 => decide (a.value.int32 = b.value.int32)
  | NTA_BasicType.UInt32 => decide (a.value.uint32 = b.value.uint32)
  | NTA_BasicType.Int64 => decide (a.value.int64 = b.value.int64)
  | NTA_BasicType.UInt64 => decide (a.value.uint64 = b.value.uint64)
  | NTA_BasicType.Real32 => feq a.value.real32 b.value.real32
  | NTA_BasicType.Real64 => feq a.value.real64 b.value.real64
  | NTA_BasicType.Bool => decide (a.value.boolean = b.value.boolean)
  | NTA_BasicType.Handle => decide (a.value.handle = b.value.handle)
  | NTA_BasicType.Other _ => false

/-- A Scalar of type Int32 holding 10, as in the unit test. -/
def int32Ten : Scalar ℚ :=
  { (Scalar.create NTA_BasicType.Int32 : Scalar ℚ) with
    value := { (Scalar.create NTA_BasicType.Int32 : Scalar ℚ).value with int32 := 10 } }

/-! ## Value (from `src/nupic/ntypes/Value.hpp`) -/

/-- The enumeration `Value::Category { scalar=0, array, string }`; `other` stands for a
value of the enumeration type outside of the three enumerators (the `default` branches). -/
inductive Category where
  | scalar
  | array
  | string
  | other (code : Nat)
  deriving DecidableEq, Repr

/-- The private members of `class Value`; `A` is the type `Array`, declared outside of the
sources at hand. -/
structure Value (R A : Type) where
  category_ : Category
  scalar_ : Scalar R
  array_ : A
  string_ : String

/-- One object written to or read from a Cereal archive by `Value`. -/
inductive ValueItem (R A : Type) where
  | category (c : Category)
  | scalar (s : Scalar R)
  | array (a : A)
  | string (s : String)

/-- The function `Value::save_ar`: the category, then the member of that category; nothing
in the `default` branch. -/
def Value.save_ar {R A : Type} (v : Value R A) : List (ValueItem R A) :=
  match v.category_ with
  | Category.scalar => [ValueItem.category v.category_, ValueItem.scalar v.scalar_]
  | Category.array => [ValueItem.category v.category_, ValueItem.array v.array_]
  | Category.string => [ValueItem.category v.category_, ValueItem.string v.string_]
  | Category.other _ => []

/-- The function `Value::load_ar` on the instance `self`: reads the category, then the
member of that category; returns the loaded instance and the unread rest of the archive,
or `none` when the archive does not hold the expected object. -/
def Value.load_ar {R A : Type} (ar : List (ValueItem R A)) (self : Value R A) :
    Option (Value R A × List (ValueItem R A)) :=
  match ar with
  | ValueItem.category c :: rest =>
    match c, rest with
    | Category.scalar, ValueItem.scalar s :: rest2 =>
      some ({ self with category_ := c, scalar_ := s }, rest2)
    | Category.array, ValueItem.array a :: rest2 =>
      some ({ self with category_ := c, array_ := a }, rest2)
    | Category.string, ValueItem.string s :: rest2 =>
      some ({ self with category_ := c, string_ := s }, rest2)
    | Category.other n, rest2 => some ({ self with category_ := c }, rest2)
    | _, _ => none
  | _ => none

/-- The Value built from the Int32 Scalar holding 10, as in the unit test. -/
def scalarValueQ : Value ℚ (List Int) :=
  { category_ := Category.scalar, scalar_ := int32Ten, array_ := [], string_ := "" }

/-- The Value built from the string of the unit test. -/
def stringValueQ : Value ℚ (List Int) :=
  { category_ := Category.string, scalar_ := Scalar.create NTA_BasicType.Byte, array_ := [],
    string_ := "hello world" }

/-! ## Lemmas: ordered maps -/

theorem mapFind_mapInsert_self {κ V : Type} [LinearOrder κ] (k : κ) (v : V)
    (m : List (κ × V)) : mapFind k (mapInsert k v m) = some v := by
  induction m with
  | nil => simp [mapInsert, mapFind]
  | cons e rest ih =>
    obtain ⟨k', v'⟩ := e
    unfold mapInsert
    by_cases h1 : k < k'
    · simp [h1, mapFind]
    · by_cases h2 : k = k'
      · simp [h2, mapFind]
      · simp [h1, h2, mapFind, ih]

theorem mapFind_mapInsert_ne {κ V : Type} [LinearOrder κ] (k j : κ) (v : V)
    (m : List (κ × V)) (h : j ≠ k) : mapFind j (mapInsert k v m) = mapFind j m := by
  induction m with
  | nil => simp [mapInsert, mapFind, h]
  | cons e rest ih =>
    obtain ⟨k', v'⟩ := e
    unfold mapInsert
    by_cases h1 : k < k'
    · simp [h1, mapFind, h]
    · by_cases h2 : k = k'
      · subst h2
        simp [mapFind, h]
      · by_cases h3 : j = k'
        · simp [h1, h2, mapFind, h3]
        · simp [h1, h2, mapFind, h3, ih]

theorem mapFind_foldl_insert {κ V : Type} [LinearOrder κ] (f : Nat → κ) (g : Nat → V)
    (l : List Nat) (r : List (κ × V)) (s : Nat) (hf : ∀ a b, f a = f b → a = b)
    (h : s ∈ l ∨ mapFind (f s) r = some (g s)) :
    mapFind (f s) (l.foldl (fun r t => mapInsert (f t) (g t) r) r) = some (g s) := by
  induction l generalizing r with
  | nil =>
    rcases h with h | h
    · simp at h
    · simpa using h
  | cons t rest ih =>
    simp only [List.foldl_cons]
    apply ih
    by_cases hts : t = s
    · right
      subst hts
      exact mapFind_mapInsert_self _ _ _
    · rcases h with h | h
      · left
        rcases List.mem_cons.mp h with h | h
        · exact absurd h.symm hts
        · exact h
      · right
        rw [mapFind_mapInsert_ne _ _ _ _ (fun e => hts (hf _ _ e).symm)]
        exact h

/-! ## Lemmas: softmax -/

theorem sum_map_div {K : Type} [LinearOrderedField K] (l : List K) (s : K) :
    (l.map (fun e => e / s)).sum = l.sum / s := by
  induction l with
  | nil => simp
  | cons a rest ih => simp [ih, add_div]

theorem softmax_length {K : Type} [LinearOrderedField K] (expf : K → K) (xs : List K) :
    (softmax_ expf xs).length = xs.length := by
  cases xs <;> simp [softmax_]

theorem softmax_denominator_pos {K : Type} [LinearOrderedField K] (expf : K → K)
    (hexp : ∀ x, 0 < expf x) (m : K) (xs : List K) (hne : xs ≠ []) :
    0 < (xs.map (fun v => expf (v - m))).sum := by
  apply List.sum_pos
  · intro e he
    obtain ⟨v, _, rfl⟩ := List.mem_map.mp he
    exact hexp _
  · simpa using hne

theorem softmax_nonneg {K : Type} [LinearOrderedField K] (expf : K → K)
    (hexp : ∀ x, 0 < expf x) (xs : List K) : ∀ p ∈ softmax_ expf xs, 0 ≤ p := by
  intro p hp
  cases xs with
  | nil => simp [softmax_] at hp
  | cons x rest =>
    simp only [softmax_] at hp
    obtain ⟨e, he, rfl⟩ := List.mem_map.mp hp
    obtain ⟨v, _, rfl⟩ := List.mem_map.mp he
    exact div_nonneg (hexp _).le
      (softmax_denominator_pos expf hexp _ (x :: rest) (by simp)).le

theorem softmax_sum {K : Type} [LinearOrderedField K] (expf : K → K)
    (hexp : ∀ x, 0 < expf x) (xs : List K) (hne : xs ≠ []) : (softmax_ expf xs).sum = 1 := by
  cases xs with
  | nil => exact absurd rfl hne
  | cons x rest =>
    simp only [softmax_]
    rw [sum_map_div]
    exact div_self (softmax_denominator_pos expf hexp _ (x :: rest) (by simp)).ne.symm

theorem scores_length {K : Type} [LinearOrderedField K] (c : SDRClassifier K) (step : Nat)
    (patternNZ : List Nat) : (scores c step patternNZ).length = numBuckets c := by
  simp [scores]

theorem infer_step_pdf {K : Type} [LinearOrderedField K] (expf : K → K) (c : SDRClassifier K)
    (patternNZ : List Nat) (actValue : List K) (result : ClassifierResult K) (s : Nat)
    (hs : s ∈ c.steps_) :
    mapFind (s : Int) (infer_ expf c patternNZ actValue result)
      = some (softmax_ expf (scores c s patternNZ)) := by
  unfold infer_
  have hne : (s : Int) ≠ ACTUAL_VALUES := by
    unfold ACTUAL_VALUES
    omega
  rw [mapFind_mapInsert_ne _ _ _ _ hne]
  exact mapFind_foldl_insert (fun t : Nat => (t : Int))
    (fun t => softmax_ expf (scores c t patternNZ)) c.steps_ result s
    (fun a b h => by
      have h2 : (a : Int) = (b : Int) := h
      exact_mod_cast h2) (Or.inl hs)

/-! ## Lemmas: what the learner leaves alone -/

theorem foldl_keep {α β γ : Type} (g : β → γ) (f : β → α → β)
    (h : ∀ b a, g (f b a) = g b) (l : List α) (b : β) : g (l.foldl f b) = g b := by
  induction l generalizing b with
  | nil => rfl
  | cons a rest ih => simp only [List.foldl_cons, ih, h]

theorem fixedPart_growBuckets {K : Type} [LinearOrderedField K] (c : SDRClassifier K)
    (bucket : Nat) : fixedPart (growBuckets c bucket) = fixedPart c := rfl

theorem fixedPart_accumulate {K : Type} [LinearOrderedField K] (c : SDRClassifier K)
    (step bit bucket : Nat) (delta : K) :
    fixedPart (accumulate c step bit bucket delta) = fixedPart c := rfl

theorem fixedPart_observe {K : Type} [LinearOrderedField K] (c : SDRClassifier K)
    (bucket : Nat) (value : K) (category : Bool) :
    fixedPart (observe c bucket value category) = fixedPart c := by
  unfold observe
  simp only
  split <;> rfl

theorem fixedPart_learnStep {K : Type} [LinearOrderedField K] (expf : K → K)
    (c : SDRClassifier K) (recordNum : Nat) (bucketIdxList : List Nat) (step : Nat) :
    fixedPart (learnStep expf c recordNum bucketIdxList step) = fixedPart c := by
  unfold learnStep applyError
  split
  · rfl
  · exact foldl_keep fixedPart _
      (fun b a => foldl_keep fixedPart _ (fun b2 a2 => fixedPart_accumulate _ _ _ _ _) _ b) _ c

theorem fixedPart_learn {K : Type} [LinearOrderedField K] (expf : K → K)
    (c : SDRClassifier K) (recordNum : Nat) (bucketIdxList : List Nat)
    (actValueList : List K) (category : Bool) :
    fixedPart (learn_ expf c recordNum bucketIdxList actValueList category) = fixedPart c := by
  unfold learn_
  exact (foldl_keep fixedPart _ (fun b (a : Nat × K) => fixedPart_observe b a.1 a.2 category) _ _).trans
    ((foldl_keep fixedPart _
      (fun b a => fixedPart_learnStep expf b recordNum bucketIdxList a) _ _).trans
      (foldl_keep fixedPart _ fixedPart_growBuckets _ _))

theorem steps_learn {K : Type} [LinearOrderedField K] (expf : K → K)
    (c : SDRClassifier K) (recordNum : Nat) (bucketIdxList : List Nat)
    (actValueList : List K) (category : Bool) :
    (learn_ expf c recordNum bucketIdxList actValueList category).steps_ = c.steps_ :=
  congrArg Prod.fst (fixedPart_learn expf c recordNum bucketIdxList actValueList category)

theorem steps_record {K : Type} (c : SDRClassifier K) (recordNum : Nat)
    (patternNZ : List Nat) : (record c recordNum patternNZ).steps_ = c.steps_ := by
  unfold record
  simp only
  split <;> rfl

theorem compute_eq_ok {K : Type} [LinearOrderedField K] (expf : K → K) (c : SDRClassifier K)
    (recordNum : Nat) (patternNZ : List Nat) (bucketIdxList : List Nat)
    (actValueList : List K) (category learn infer : Bool) (result : ClassifierResult K)
    (hlen : bucketIdxList.length = actValueList.length) :
    compute expf c recordNum patternNZ bucketIdxList actValueList category learn infer result
      = Except.ok
        (stateAfter expf c recordNum patternNZ bucketIdxList actValueList category learn,
          if infer then
            infer_ expf
              (stateAfter expf c recordNum patternNZ bucketIdxList actValueList category learn)
              patternNZ actValueList result
          else result) := by
  unfold compute stateAfter
  rw [if_neg (not_not.mpr hlen)]

theorem steps_stateAfter {K : Type} [LinearOrderedField K] (expf : K → K)
    (c : SDRClassifier K) (recordNum : Nat) (patternNZ : List Nat) (bucketIdxList : List Nat)
    (actValueList : List K) (category learn : Bool) :
    (stateAfter expf c recordNum patternNZ bucketIdxList actValueList category learn).steps_
      = c.steps_ := by
  unfold stateAfter
  cases learn
  · simp [steps_record]
  · simp [steps_learn, steps_record]

/-! ## Softmax, inference output and classification: the claims -/

/-- C1: for a positive exponential, `softmax_` of a non-empty score sequence has the same
length, non-negative entries and sum 1; and every `compute` call with matching list sizes
and `infer = true` returns a result in which each configured step has a PDF over the
bucket universe that, when the universe is non-empty, is non-negative and sums to 1. -/
theorem softmax_is_distribution {K : Type} [LinearOrderedField K] (expf : K → K)
    (hexp : ∀ x, 0 < expf x) :
    (∀ xs : List K, xs ≠ [] →
      (softmax_ expf xs).length = xs.length ∧ (∀ p ∈ softmax_ expf xs, 0 ≤ p) ∧
        (softmax_ expf xs).sum = 1) ∧
    (∀ (c : SDRClassifier K) (recordNum : Nat) (patternNZ bucketIdxList : List Nat)
        (actValueList : List K) (category learn : Bool) (result : ClassifierResult K),
      bucketIdxList.length = actValueList.length →
      ∃ c1 r, compute expf c recordNum patternNZ bucketIdxList actValueList category learn
            true result = Except.ok (c1, r) ∧
        ∀ s ∈ c.steps_, ∃ pdf, mapFind (s : Int) r = some pdf ∧
          pdf.length = numBuckets c1 ∧
          (numBuckets c1 ≠ 0 → (∀ p ∈ pdf, 0 ≤ p) ∧ pdf.sum = 1)) := by
  refine ⟨fun xs hne => ⟨softmax_length expf xs, softmax_nonneg expf hexp xs,
    softmax_sum expf hexp xs hne⟩, ?_⟩
  intro c recordNum patternNZ bucketIdxList actValueList category learn result hlen
  refine ⟨_, _, compute_eq_ok expf c recordNum patternNZ bucketIdxList actValueList category
    learn true result hlen, ?_⟩
  intro s hs
  rw [if_pos rfl]
  refine ⟨_, infer_step_pdf expf _ patternNZ actValueList result s ?_, ?_, ?_⟩
  · rw [steps_stateAfter]
    exact hs
  · rw [softmax_length, scores_length]
  · intro hnz
    have hne : scores (stateAfter expf c recordNum patternNZ bucketIdxList actValueList
        category learn) s patternNZ ≠ [] := by
      intro h
      have := congrArg List.length h
      rw [scores_length] at this
      exact hnz this
    exact ⟨softmax_nonneg expf hexp _, softmax_sum expf hexp _ hne⟩

/-- Witness for C1 with the rational stand-in exponential `expQ`. -/
theorem softmax_is_distribution_witness :
    (∀ x : ℚ, 0 < expQ x) ∧
    ((∀ xs : List ℚ, xs ≠ [] →
      (softmax_ expQ xs).length = xs.length ∧ (∀ p ∈ softmax_ expQ xs, 0 ≤ p) ∧
        (softmax_ expQ xs).sum = 1) ∧
    (∀ (c : SDRClassifier ℚ) (recordNum : Nat) (patternNZ bucketIdxList : List Nat)
        (actValueList : List ℚ) (category learn : Bool) (result : ClassifierResult ℚ),
      bucketIdxList.length = actValueList.length →
      ∃ c1 r, compute expQ c recordNum patternNZ bucketIdxList actValueList category learn
            true result = Except.ok (c1, r) ∧
        ∀ s ∈ c.steps_, ∃ pdf, mapFind (s : Int) r = some pdf ∧
          pdf.length = numBuckets c1 ∧
          (numBuckets c1 ≠ 0 → (∀ p ∈ pdf, 0 ≤ p) ∧ pdf.sum = 1))) :=
  ⟨fun x => zpow_pos (by norm_num) _,
    softmax_is_distribution expQ (fun x => zpow_pos (by norm_num) _)⟩

theorem foldl_max_of_all_eq {K : Type} [LinearOrder K] (rest : List K) (x : K)
    (h : ∀ y ∈ rest, y = x) : rest.foldl max x = x := by
  induction rest with
  | nil => rfl
  | cons y ys ih =>
    have hy : y = x := h y (List.mem_cons_self _ _)
    subst hy
    simp only [List.foldl_cons, max_self]
    exact ih (fun z hz => h z (List.mem_cons_of_mem _ hz))

theorem map_const_of_all_eq {K : Type} (f : K → K) (xs : List K) (a : K)
    (h : ∀ x ∈ xs, x = a) : xs.map f = List.replicate xs.length (f a) := by
  induction xs with
  | nil => rfl
  | cons y ys ih =>
    rw [List.map_cons, List.length_cons, List.replicate_succ, h y (List.mem_cons_self _ _),
      ih (fun z hz => h z (List.mem_cons_of_mem _ hz))]

/-- C2: for a positive exponential, `softmax_` of a non-empty sequence of length n whose
entries are all equal to some `a` (zero included) is the uniform distribution: n entries,
each equal to 1/n. -/
theorem softmax_uniform_of_equal_scores {K : Type} [LinearOrderedField K] (expf : K → K)
    (hexp : ∀ x, 0 < expf x) (xs : List K) (a : K) (hne : xs ≠ [])
    (hall : ∀ x ∈ xs, x = a) :
    softmax_ expf xs = List.replicate xs.length (1 / (xs.length : K)) := by
  cases xs with
  | nil => exact absurd rfl hne
  | cons x rest =>
    have hx : x = a := hall x (List.mem_cons_self _ _)
    subst hx
    have hmax : rest.foldl max x = x :=
      foldl_max_of_all_eq rest x (fun y hy => hall y (List.mem_cons_of_mem _ hy))
    simp only [softmax_, hmax]
    rw [map_const_of_all_eq (fun v => expf (v - x)) (x :: rest) x hall]
    simp only [sub_self, List.sum_replicate, List.map_replicate, nsmul_eq_mul]
    congr 1
    have he : expf 0 ≠ 0 := (hexp 0).ne.symm
    have hn : ((x :: rest).length : K) ≠ 0 :=
      Nat.cast_ne_zero.mpr (Nat.succ_ne_zero rest.length)
    field_simp
    ring

/-- Witness for C2: three zero scores under `expQ` give three times 1/3. -/
theorem softmax_uniform_of_equal_scores_witness :
    (∀ x : ℚ, 0 < expQ x) ∧ ([0, 0, 0] : List ℚ) ≠ [] ∧
    (∀ x ∈ ([0, 0, 0] : List ℚ), x = 0) ∧
    softmax_ expQ [0, 0, 0]
      = List.replicate ([0, 0, 0] : List ℚ).length (1 / (([0, 0, 0] : List ℚ).length : ℚ)) :=
  ⟨fun x => zpow_pos (by norm_num) _, by simp, by simp,
    softmax_uniform_of_equal_scores expQ (fun x => zpow_pos (by norm_num) _) [0, 0, 0] 0
      (by simp) (by simp)⟩

/-! ### Classification -/

theorem argmaxScan_spec {K : Type} [LinearOrder K] (ys pre : List K) (bi : Nat) (bv : K)
    (hbi : pre[bi]? = some bv) (hmax : ∀ (j : Nat) (w : K), pre[j]? = some w → w ≤ bv)
    (hfirst : ∀ (j : Nat) (w : K), j < bi → pre[j]? = some w → w < bv) :
    IsFirstMax (pre ++ ys) (argmaxScan ys pre.length bi bv) := by
  induction ys generalizing pre bi bv with
  | nil =>
    simp only [argmaxScan, List.append_nil]
    exact ⟨bv, hbi, hmax, hfirst⟩
  | cons y ys ih =>
    have hlt : bi < pre.length := by
      by_contra hge
      rw [List.getElem?_eq_none (Nat.le_of_not_lt hge)] at hbi
      exact Option.noConfusion hbi
    have hstep : pre ++ y :: ys = (pre ++ [y]) ++ ys := by simp
    have hlen : (pre ++ [y]).length = pre.length + 1 := by simp
    have hget : ∀ (j : Nat) (w : K), (pre ++ [y])[j]? = some w → pre[j]? = some w ∨ (j = pre.length ∧ w = y) := by
      intro j w hj
      by_cases hjl : j < pre.length
      · left
        rw [List.getElem?_append_left hjl] at hj
        exact hj
      · right
        have hle : pre.length ≤ j := Nat.le_of_not_lt hjl
        rw [List.getElem?_append_right hle] at hj
        by_cases hj0 : j - pre.length = 0
        · rw [hj0] at hj
          simp only [List.getElem?_cons_zero, Option.some.injEq] at hj
          exact ⟨by omega, hj.symm⟩
        · obtain ⟨k, hk⟩ := Nat.exists_eq_succ_of_ne_zero hj0
          rw [hk] at hj
          simp at hj
    unfold argmaxScan
    rw [hstep, ← hlen]
    by_cases hlt2 : bv < y
    · rw [if_pos hlt2]
      have hlen2 : pre.length = (pre ++ [y]).length - 1 := by simp
      rw [hlen2]
      apply ih
      · simp
      · intro j w hj
        rcases hget j w hj with h | ⟨_, h⟩
        · exact (hmax j w h).trans hlt2.le
        · exact h.le
      · intro j w hjlt hj
        rcases hget j w hj with h | ⟨h, _⟩
        · exact lt_of_le_of_lt (hmax j w h) hlt2
        · simp at hjlt
          omega
    · rw [if_neg hlt2]
      apply ih
      · rw [List.getElem?_append_left hlt]
        exact hbi
      · intro j w hj
        rcases hget j w hj with h | ⟨_, h⟩
        · exact hmax j w h
        · rw [h]
          exact not_lt.mp hlt2
      · intro j w hjlt hj
        rcases hget j w hj with h | ⟨h, _⟩
        · exact hfirst j w hjlt h
        · omega

/-- C3: for every non-empty PDF, `getClassification` returns an index `i` inside the PDF
such that `pdf[i]` is at least every entry and strictly above every entry at a smaller
index (ties go to the lowest index); for `[0.5, 0.5, 0.0]` the result is 0. -/
theorem getClassification_first_max {K : Type} [LinearOrderedField K] (pdf : PDF K)
    (hne : pdf ≠ []) :
    (∃ v, pdf[getClassification pdf]? = some v ∧ (∀ (j : Nat) (w : K), pdf[j]? = some w → w ≤ v) ∧
      (∀ (j : Nat) (w : K), j < getClassification pdf → pdf[j]? = some w → w < v)) ∧
    getClassification ([1 / 2, 1 / 2, 0] : PDF K) = 0 := by
  constructor
  · cases pdf with
    | nil => exact absurd rfl hne
    | cons x rest =>
      have h := argmaxScan_spec rest [x] 0 x (by simp)
        (fun j w hj => by
          cases j with
          | zero =>
            simp only [List.getElem?_cons_zero, Option.some.injEq] at hj
            exact hj.symm.le
          | succ k => simp at hj)
        (fun j w hj _ => absurd hj (Nat.not_lt_zero j))
      exact h
  · simp [getClassification, argmaxScan]

/-- Witness for C3 on the rational PDF `[1/4, 1/2, 1/4]`. -/
theorem getClassification_first_max_witness :
    ([1 / 4, 1 / 2, 1 / 4] : PDF ℚ) ≠ [] ∧
    ((∃ v, ([1 / 4, 1 / 2, 1 / 4] : PDF ℚ)[getClassification
        ([1 / 4, 1 / 2, 1 / 4] : PDF ℚ)]? = some v ∧
      (∀ (j : Nat) (w : ℚ), ([1 / 4, 1 / 2, 1 / 4] : PDF ℚ)[j]? = some w → w ≤ v) ∧
      (∀ (j : Nat) (w : ℚ), j < getClassification ([1 / 4, 1 / 2, 1 / 4] : PDF ℚ) →
        ([1 / 4, 1 / 2, 1 / 4] : PDF ℚ)[j]? = some w → w < v)) ∧
    getClassification ([1 / 2, 1 / 2, 0] : PDF ℚ) = 0) :=
  ⟨by simp, getClassification_first_max [1 / 4, 1 / 2, 1 / 4] (by simp)⟩

/-! ## Actual-value tracker: lemmas and claim -/

theorem getD_append_replicate {α : Type} (l : List α) (n i : Nat) (d : α) :
    (l ++ List.replicate n d).getD i d = l.getD i d := by
  simp only [List.getD_eq_getElem?_getD]
  by_cases h : i < l.length
  · rw [List.getElem?_append_left h]
  · have hle : l.length ≤ i := Nat.le_of_not_lt h
    rw [List.getElem?_append_right hle, List.getElem?_replicate, List.getElem?_eq_none hle]
    split <;> rfl

theorem avPart_growBuckets {K : Type} [LinearOrderedField K] (c : SDRClassifier K)
    (bucket : Nat) : avPart (growBuckets c bucket) = avPart c := by
  unfold avPart growBuckets
  simp only [Prod.mk.injEq, and_true]
  exact ⟨funext fun b => getD_append_replicate _ _ _ _,
    funext fun b => getD_append_replicate _ _ _ _⟩

theorem avPart_accumulate {K : Type} [LinearOrderedField K] (c : SDRClassifier K)
    (step bit bucket : Nat) (delta : K) :
    avPart (accumulate c step bit bucket delta) = avPart c :=
  avPart_growBuckets c bucket

theorem avPart_learnStep {K : Type} [LinearOrderedField K] (expf : K → K)
    (c : SDRClassifier K) (recordNum : Nat) (bucketIdxList : List Nat) (step : Nat) :
    avPart (learnStep expf c recordNum bucketIdxList step) = avPart c := by
  unfold learnStep applyError
  split
  · rfl
  · exact foldl_keep avPart _
      (fun b a => foldl_keep avPart _ (fun b2 a2 => avPart_accumulate _ _ _ _ _) _ b) _ c

theorem avPart_record {K : Type} [LinearOrderedField K] (c : SDRClassifier K)
    (recordNum : Nat) (patternNZ : List Nat) :
    avPart (record c recordNum patternNZ) = avPart c := by
  unfold record
  simp only
  split <;> rfl

theorem growBuckets_covers {K : Type} [LinearOrderedField K] (c : SDRClassifier K)
    (bucket : Nat) :
    bucket < (growBuckets c bucket).actualValues_.length ∧
      bucket < (growBuckets c bucket).actualValuesSet_.length := by
  unfold growBuckets
  simp only [List.length_append, List.length_replicate]
  cases c.maxBucketIdx_ with
  | none => simp only; omega
  | some m =>
    simp only
    have : bucket ≤ max m bucket := le_max_right _ _
    omega

theorem observe_spec {K : Type} [LinearOrderedField K] (c : SDRClassifier K) (bucket : Nat)
    (value : K) (category : Bool) :
    (observe c bucket value category).actualValues_[bucket]?
        = some (if c.actualValuesSet_.getD bucket false then
            (1 - c.actValueAlpha_) * c.actualValues_.getD bucket 0 + c.actValueAlpha_ * value
          else value) ∧
      (observe c bucket value category).actualValuesSet_[bucket]? = some true := by
  have hav := avPart_growBuckets c bucket
  have hv : (growBuckets c bucket).actualValues_.getD bucket 0
      = c.actualValues_.getD bucket 0 := congrFun (congrArg Prod.fst hav) bucket
  have hs : (growBuckets c bucket).actualValuesSet_.getD bucket false
      = c.actualValuesSet_.getD bucket false :=
    congrFun (congrArg (fun p => p.2.1) hav) bucket
  have ha : (growBuckets c bucket).actValueAlpha_ = c.actValueAlpha_ := rfl
  obtain ⟨h1, h2⟩ := growBuckets_covers c bucket
  unfold observe
  simp only
  by_cases hset : (growBuckets c bucket).actualValuesSet_.getD bucket false = true
  · rw [if_pos hset, if_pos (hs ▸ hset)]
    refine ⟨?_, ?_⟩
    · simp only
      rw [List.getElem?_set_self h1, hv, ha]
    · simp only
      rw [List.getD_eq_getElem?_getD] at hset
      rw [List.getElem?_eq_getElem h2] at hset ⊢
      simpa using hset
  · rw [if_neg hset, if_neg (hs ▸ hset)]
    exact ⟨List.getElem?_set_self h1, List.getElem?_set_self h2⟩

theorem learn_single {K : Type} [LinearOrderedField K] (expf : K → K) (c : SDRClassifier K)
    (recordNum bucket : Nat) (value : K) (category : Bool) :
    ∃ c2, learn_ expf c recordNum [bucket] [value] category = observe c2 bucket value category ∧
      avPart c2 = avPart c := by
  refine ⟨_, rfl, ?_⟩
  exact (foldl_keep avPart _
    (fun b a => avPart_learnStep expf b recordNum [bucket] a) _ _).trans
    (avPart_growBuckets c bucket)

/-- C4: for every bucket and value and either value of the category flag, `observe` (and a
learning `compute` call that supplies the pair) stores the value itself and marks the
bucket set when the bucket was not yet set, and otherwise stores
`(1 - actValueAlpha) * old + actValueAlpha * value`; with `actValueAlpha = 0.3`, two
learning calls observing 10 and then 20 on a fresh bucket leave 13. -/
theorem actual_value_update {K : Type} [LinearOrderedField K] (expf : K → K) :
    (∀ (c : SDRClassifier K) (bucket : Nat) (value : K) (category : Bool),
      (observe c bucket value category).actualValues_[bucket]?
          = some (if c.actualValuesSet_.getD bucket false then
              (1 - c.actValueAlpha_) * c.actualValues_.getD bucket 0 + c.actValueAlpha_ * value
            else value) ∧
        (observe c bucket value category).actualValuesSet_[bucket]? = some true) ∧
    (∀ (c : SDRClassifier K) (recordNum : Nat) (patternNZ : List Nat) (bucket : Nat)
        (value : K) (category infer : Bool) (result : ClassifierResult K),
      ∃ c1 r, compute expf c recordNum patternNZ [bucket] [value] category true infer result
            = Except.ok (c1, r) ∧
        c1.actValueAlpha_ = c.actValueAlpha_ ∧
        c1.actualValues_[bucket]?
          = some (if c.actualValuesSet_.getD bucket false then
              (1 - c.actValueAlpha_) * c.actualValues_.getD bucket 0 + c.actValueAlpha_ * value
            else value) ∧
        c1.actualValuesSet_[bucket]? = some true) ∧
    (∀ (bucket : Nat) (category1 category2 : Bool),
      ∃ c0 c1 r1 c2 r2, initClassifier [1] (1 / 10 : K) (3 / 10) 0 = Except.ok c0 ∧
        compute expf c0 0 [1, 3] [bucket] [10] category1 true false [] = Except.ok (c1, r1) ∧
        compute expf c1 1 [2, 4] [bucket] [20] category2 true false [] = Except.ok (c2, r2) ∧
        c2.actualValues_[bucket]? = some 13) := by
  have hcompute : ∀ (c : SDRClassifier K) (recordNum : Nat) (patternNZ : List Nat)
      (bucket : Nat) (value : K) (category infer : Bool) (result : ClassifierResult K),
      ∃ c1 r, compute expf c recordNum patternNZ [bucket] [value] category true infer result
            = Except.ok (c1, r) ∧
        c1.actValueAlpha_ = c.actValueAlpha_ ∧
        c1.actualValues_[bucket]?
          = some (if c.actualValuesSet_.getD bucket false then
              (1 - c.actValueAlpha_) * c.actualValues_.getD bucket 0 + c.actValueAlpha_ * value
            else value) ∧
        c1.actualValuesSet_[bucket]? = some true := by
    intro c recordNum patternNZ bucket value category infer result
    refine ⟨_, _, compute_eq_ok expf c recordNum patternNZ [bucket] [value] category true infer
      result rfl, ?_⟩
    obtain ⟨c2, hc2, hav⟩ :=
      learn_single expf (record c recordNum patternNZ) recordNum bucket value category
    have hav2 : avPart c2 = avPart c := hav.trans (avPart_record c recordNum patternNZ)
    have hv : c2.actualValues_.getD bucket 0 = c.actualValues_.getD bucket 0 :=
      congrFun (congrArg Prod.fst hav2) bucket
    have hs : c2.actualValuesSet_.getD bucket false = c.actualValuesSet_.getD bucket false :=
      congrFun (congrArg (fun p => p.2.1) hav2) bucket
    have ha : c2.actValueAlpha_ = c.actValueAlpha_ := congrArg (fun p => p.2.2) hav2
    have hst : stateAfter expf c recordNum patternNZ [bucket] [value] category true
        = observe c2 bucket value category := by
      unfold stateAfter
      rw [if_pos rfl, hc2]
    rw [hst]
    obtain ⟨ho1, ho2⟩ := observe_spec c2 bucket value category
    rw [hv, hs, ha] at ho1
    refine ⟨?_, ho1, ho2⟩
    have := congrArg (fun p => p.2.2.1) (fixedPart_observe c2 bucket value category)
    exact this.trans ha
  refine ⟨observe_spec, hcompute, ?_⟩
  intro bucket category1 category2
  obtain ⟨c1, r1, h1, ha1, hv1, hs1⟩ :=
    hcompute { steps_ := [1], alpha_ := 1 / 10, actValueAlpha_ := 3 / 10,
               maxSteps_ := [1].foldl max 0 + 1, patternNZHistory_ := [],
               recordNumHistory_ := [], weightMatrix_ := [], maxInputIdx_ := 0,
               maxBucketIdx_ := none, actualValues_ := [], actualValuesSet_ := [],
               version_ := sdrClassifierVersion, verbosity_ := 0 }
      0 [1, 3] bucket 10 category1 false []
  obtain ⟨c2, r2, h2, _, hv2, _⟩ := hcompute c1 1 [2, 4] bucket 20 category2 false []
  refine ⟨_, c1, r1, c2, r2, by simp [initClassifier], h1, h2, ?_⟩
  rw [hv2, ha1]
  simp only [List.getD_eq_getElem?_getD, hs1, hv1, Option.getD_some, if_true]
  simp only [List.getElem?_nil, Option.getD_none, Bool.false_eq_true, if_false]
  norm_num

/-! ## Bounded history buffer: lemmas and claim -/

theorem keepLast_length {α : Type} (cap : Nat) (l : List α) :
    (keepLast cap l).length = min l.length cap := by
  unfold keepLast
  rw [List.length_drop]
  omega

theorem keepLast_snoc {α : Type} (cap : Nat) (h : List α) (x : α) (hle : h.length ≤ cap) :
    (if (h ++ [x]).length > cap then (h ++ [x]).tail else h ++ [x]) = keepLast cap (h ++ [x]) := by
  unfold keepLast
  have hlen : (h ++ [x]).length = h.length + 1 := by simp
  by_cases hgt : (h ++ [x]).length > cap
  · rw [if_pos hgt]
    have : (h ++ [x]).length - cap = 1 := by omega
    rw [this, List.drop_one]
  · rw [if_neg hgt]
    have : (h ++ [x]).length - cap = 0 := by omega
    rw [this, List.drop_zero]

theorem keepLast_append {α : Type} (cap : Nat) (l m : List α) :
    keepLast cap (keepLast cap l ++ m) = keepLast cap (l ++ m) := by
  unfold keepLast
  have h1 : List.drop (l.length - cap) l ++ m = List.drop (l.length - cap) (l ++ m) := by
    rw [List.drop_append_of_le_length (Nat.sub_le _ _)]
  rw [h1, List.drop_drop, List.length_drop, List.length_append]
  congr 1
  omega

theorem record_histories {K : Type} (c : SDRClassifier K) (recordNum : Nat)
    (patternNZ : List Nat) (hpar : c.patternNZHistory_.length = c.recordNumHistory_.length)
    (hle : c.recordNumHistory_.length ≤ c.maxSteps_) :
    (record c recordNum patternNZ).recordNumHistory_
        = keepLast c.maxSteps_ (c.recordNumHistory_ ++ [recordNum]) ∧
      (record c recordNum patternNZ).patternNZHistory_
        = keepLast c.maxSteps_ (c.patternNZHistory_ ++ [patternNZ]) ∧
      (record c recordNum patternNZ).maxSteps_ = c.maxSteps_ := by
  have h1 := keepLast_snoc c.maxSteps_ c.recordNumHistory_ recordNum hle
  have h2 := keepLast_snoc c.maxSteps_ c.patternNZHistory_ patternNZ (hpar ▸ hle)
  have hl : (c.patternNZHistory_ ++ [patternNZ]).length
      = (c.recordNumHistory_ ++ [recordNum]).length := by simp [hpar]
  unfold record
  simp only
  by_cases hgt : (c.patternNZHistory_ ++ [patternNZ]).length > c.maxSteps_
  · rw [if_pos hgt] at h2
    rw [if_pos (hl ▸ hgt)] at h1
    rw [if_pos hgt]
    exact ⟨h1, h2, rfl⟩
  · rw [if_neg hgt] at h2
    rw [if_neg (hl ▸ hgt)] at h1
    rw [if_neg hgt]
    exact ⟨h1, h2, rfl⟩

theorem fixedPart_stateAfter_learn {K : Type} [LinearOrderedField K] (expf : K → K)
    (c : SDRClassifier K) (recordNum : Nat) (patternNZ : List Nat) (bucketIdxList : List Nat)
    (actValueList : List K) (category learn : Bool) :
    fixedPart (stateAfter expf c recordNum patternNZ bucketIdxList actValueList category learn)
      = fixedPart (record c recordNum patternNZ) := by
  unfold stateAfter
  cases learn
  · rfl
  · exact fixedPart_learn expf _ recordNum bucketIdxList actValueList category

theorem compute_histories {K : Type} [LinearOrderedField K] (expf : K → K)
    (c c1 : SDRClassifier K) (recordNum : Nat) (patternNZ : List Nat)
    (bucketIdxList : List Nat) (actValueList : List K) (category learn infer : Bool)
    (result r : ClassifierResult K)
    (hc : compute expf c recordNum patternNZ bucketIdxList actValueList category learn infer
      result = Except.ok (c1, r))
    (hpar : c.patternNZHistory_.length = c.recordNumHistory_.length)
    (hle : c.recordNumHistory_.length ≤ c.maxSteps_) :
    c1.recordNumHistory_ = keepLast c.maxSteps_ (c.recordNumHistory_ ++ [recordNum]) ∧
      c1.patternNZHistory_ = keepLast c.maxSteps_ (c.patternNZHistory_ ++ [patternNZ]) ∧
      c1.maxSteps_ = c.maxSteps_ := by
  by_cases hlen : bucketIdxList.length = actValueList.length
  · rw [compute_eq_ok expf c recordNum patternNZ bucketIdxList actValueList category learn
      infer result hlen] at hc
    have hc1 := (Prod.mk.inj (Except.ok.inj hc)).1
    have hfix := fixedPart_stateAfter_learn expf c recordNum patternNZ bucketIdxList
      actValueList category learn
    rw [hc1] at hfix
    obtain ⟨h1, h2, h3⟩ := record_histories c recordNum patternNZ hpar hle
    refine ⟨?_, ?_, ?_⟩
    · exact (congrArg (fun p => p.2.2.2.2.2.1) hfix).trans h1
    · exact (congrArg (fun p => p.2.2.2.2.1) hfix).trans h2
    · exact (congrArg (fun p => p.2.2.2.1) hfix).trans h3
  · unfold compute at hc
    rw [if_pos hlen] at hc
    exact Except.noConfusion hc

theorem runCalls_histories {K : Type} [LinearOrderedField K] (expf : K → K)
    (calls : List (Call K)) (c c1 : SDRClassifier K)
    (hrun : runCalls expf c calls = Except.ok c1)
    (hpar : c.patternNZHistory_.length = c.recordNumHistory_.length)
    (hle : c.recordNumHistory_.length ≤ c.maxSteps_) :
    c1.recordNumHistory_
        = keepLast c.maxSteps_ (c.recordNumHistory_ ++ calls.map Call.recordNum) ∧
      c1.patternNZHistory_
        = keepLast c.maxSteps_ (c.patternNZHistory_ ++ calls.map Call.patternNZ) := by
  induction calls generalizing c with
  | nil =>
    simp only [runCalls, Except.ok.injEq] at hrun
    subst hrun
    simp only [List.map_nil, List.append_nil, keepLast]
    have h1 : c.recordNumHistory_.length - c.maxSteps_ = 0 := by omega
    have h2 : c.patternNZHistory_.length - c.maxSteps_ = 0 := by omega
    rw [h1, h2]
    exact ⟨rfl, rfl⟩
  | cons a rest ih =>
    unfold runCalls at hrun
    split at hrun
    · exact Except.noConfusion hrun
    · rename_i c2 r2 hc
      obtain ⟨h1, h2, h3⟩ := compute_histories expf c c2 _ _ _ _ _ _ _ _ _ hc hpar hle
      have hpar2 : c2.patternNZHistory_.length = c2.recordNumHistory_.length := by
        rw [h1, h2, keepLast_length, keepLast_length]
        simp [hpar]
      have hle2 : c2.recordNumHistory_.length ≤ c2.maxSteps_ := by
        rw [h1, h3, keepLast_length]
        exact min_le_right _ _
      obtain ⟨i1, i2⟩ := ih c2 hrun hpar2 hle2
      rw [h3, h1, keepLast_append] at i1
      rw [h3, h2, keepLast_append] at i2
      simp only [List.map_cons]
      rw [i1, i2]
      simp

theorem foldl_max_ge {l : List Nat} {a : Nat} :
    a ≤ l.foldl max a ∧ (∀ s ∈ l, s ≤ l.foldl max a) ∧ (l.foldl max a = a ∨ l.foldl max a ∈ l) := by
  induction l generalizing a with
  | nil => simp
  | cons x rest ih =>
    obtain ⟨h1, h2, h3⟩ := ih (a := max a x)
    simp only [List.foldl_cons, List.mem_cons, forall_eq_or_imp]
    refine ⟨(le_max_left a x).trans h1, ⟨(le_max_right a x).trans h1, h2⟩, ?_⟩
    rcases h3 with h | h
    · rcases max_choice a x with hm | hm
      · left; rw [h, hm]
      · right; left; rw [h, hm]
    · right; right; exact h

theorem foldl_max_mem (steps : List Nat) (hne : steps ≠ []) :
    steps.foldl max 0 ∈ steps ∧ ∀ s ∈ steps, s ≤ steps.foldl max 0 := by
  obtain ⟨_, h2, h3⟩ := foldl_max_ge (l := steps) (a := 0)
  refine ⟨?_, h2⟩
  rcases h3 with h | h
  · cases steps with
    | nil => exact absurd rfl hne
    | cons x rest =>
      have hx : x ≤ 0 := h ▸ h2 x (List.mem_cons_self _ _)
      have hx0 : x = 0 := Nat.le_zero.mp hx
      rw [h, hx0]
      exact List.mem_cons_self _ _
  · exact h

/-- C5: in every state reached from `initialize` by successful `compute` calls, both
history buffers hold at most `max(steps) + 1` entries and are exactly the last
`max(steps) + 1` fed record numbers / patterns (the oldest are evicted first); once more
than `max(steps) + 1` distinct record numbers have been fed, the length is exactly
`max(steps) + 1`. -/
theorem history_bounded {K : Type} [LinearOrderedField K] (expf : K → K) (steps : List Nat)
    (alpha actValueAlpha : K) (verbosity : Nat) (calls : List (Call K))
    (c0 c : SDRClassifier K)
    (h0 : initClassifier steps alpha actValueAlpha verbosity = Except.ok c0)
    (hrun : runCalls expf c0 calls = Except.ok c) :
    ∃ M, M ∈ steps ∧ (∀ s ∈ steps, s ≤ M) ∧
      c.recordNumHistory_.length ≤ M + 1 ∧ c.patternNZHistory_.length ≤ M + 1 ∧
      c.recordNumHistory_ = (calls.map Call.recordNum).drop (calls.length - (M + 1)) ∧
      c.patternNZHistory_ = (calls.map Call.patternNZ).drop (calls.length - (M + 1)) ∧
      (M + 1 < (calls.map Call.recordNum).toFinset.card →
        c.recordNumHistory_.length = M + 1 ∧ c.patternNZHistory_.length = M + 1) := by
  unfold initClassifier at h0
  split at h0
  · exact Except.noConfusion h0
  · rename_i hsteps
    have hne : steps ≠ [] := fun h => hsteps (Or.inl h)
    have hc0 := Except.ok.inj h0
    subst hc0
    obtain ⟨hmem, hmax⟩ := foldl_max_mem steps hne
    obtain ⟨h1, h2⟩ := runCalls_histories expf calls _ c hrun rfl (Nat.zero_le _)
    simp only [List.nil_append] at h1 h2
    have e1 : c.recordNumHistory_
        = (calls.map Call.recordNum).drop (calls.length - (steps.foldl max 0 + 1)) := by
      rw [h1, keepLast, List.length_map]
    have e2 : c.patternNZHistory_
        = (calls.map Call.patternNZ).drop (calls.length - (steps.foldl max 0 + 1)) := by
      rw [h2, keepLast, List.length_map]
    have l1 : c.recordNumHistory_.length = min calls.length (steps.foldl max 0 + 1) := by
      rw [h1, keepLast_length, List.length_map]
    have l2 : c.patternNZHistory_.length = min calls.length (steps.foldl max 0 + 1) := by
      rw [h2, keepLast_length, List.length_map]
    refine ⟨steps.foldl max 0, hmem, hmax, ?_, ?_, e1, e2, ?_⟩
    · rw [l1]; exact min_le_right _ _
    · rw [l2]; exact min_le_right _ _
    · intro hcard
      have hle : (calls.map Call.recordNum).toFinset.card ≤ calls.length := by
        have := List.toFinset_card_le (calls.map Call.recordNum)
        rwa [List.length_map] at this
      rw [l1, l2]
      exact ⟨by omega, by omega⟩

/-- Witness for C5: three records fed to a classifier with steps `[1]`. -/
theorem history_bounded_witness :
    ∃ M, M ∈ [1] ∧ (∀ s ∈ [1], s ≤ M) ∧
      ({ freshQ with patternNZHistory_ := [[2, 4], [5]], recordNumHistory_ := [1, 2] }
        : SDRClassifier ℚ).recordNumHistory_.length ≤ M + 1 ∧
      ({ freshQ with patternNZHistory_ := [[2, 4], [5]], recordNumHistory_ := [1, 2] }
        : SDRClassifier ℚ).patternNZHistory_.length ≤ M + 1 ∧
      ({ freshQ with patternNZHistory_ := [[2, 4], [5]], recordNumHistory_ := [1, 2] }
        : SDRClassifier ℚ).recordNumHistory_
        = (threeCalls.map Call.recordNum).drop (threeCalls.length - (M + 1)) ∧
      ({ freshQ with patternNZHistory_ := [[2, 4], [5]], recordNumHistory_ := [1, 2] }
        : SDRClassifier ℚ).patternNZHistory_
        = (threeCalls.map Call.patternNZ).drop (threeCalls.length - (M + 1)) ∧
      (M + 1 < (threeCalls.map Call.recordNum).toFinset.card →
        ({ freshQ with patternNZHistory_ := [[2, 4], [5]], recordNumHistory_ := [1, 2] }
          : SDRClassifier ℚ).recordNumHistory_.length = M + 1 ∧
        ({ freshQ with patternNZHistory_ := [[2, 4], [5]], recordNumHistory_ := [1, 2] }
          : SDRClassifier ℚ).patternNZHistory_.length = M + 1) :=
  history_bounded expQ [1] (1 / 10) (3 / 10) 0 threeCalls freshQ
    { freshQ with patternNZHistory_ := [[2, 4], [5]], recordNumHistory_ := [1, 2] }
    (by simp [initClassifier, freshQ, sdrClassifierVersion])
    (by simp [runCalls, threeCalls, compute, record, freshQ])

/-! ## Learner: lemmas on the weight store -/

theorem readWeight_eq {K : Type} [LinearOrderedField K] (w : List (Nat × Matrix K))
    (step bit bucket : Nat) :
    readWeight w step bit bucket
      = (mapFind bucket ((mapFind bit ((mapFind step w).getD [])).getD [])).getD 0 := by
  unfold readWeight get_
  cases mapFind step w with
  | none => simp [mapFind]
  | some m =>
    simp only [Option.getD_some]
    cases mapFind bit m with
    | none => simp [mapFind]
    | some r =>
      simp only [Option.getD_some]
      cases mapFind bucket r <;> simp

theorem readWeight_accumulateW {K : Type} [LinearOrderedField K] (w : List (Nat × Matrix K))
    (s bit b : Nat) (d : K) (s1 bit1 b1 : Nat) :
    readWeight (accumulateW w s bit b d) s1 bit1 b1
      = readWeight w s1 bit1 b1 + (if s1 = s ∧ bit1 = bit ∧ b1 = b then d else 0) := by
  simp only [readWeight_eq, accumulateW]
  by_cases hs : s1 = s
  · subst hs
    rw [mapFind_mapInsert_self]
    simp only [Option.getD_some]
    by_cases hbit : bit1 = bit
    · subst hbit
      rw [mapFind_mapInsert_self]
      simp only [Option.getD_some]
      by_cases hb : b1 = b
      · subst hb
        rw [mapFind_mapInsert_self]
        simp
      · rw [mapFind_mapInsert_ne _ _ _ _ hb]
        simp [hb]
    · rw [mapFind_mapInsert_ne _ _ _ _ hbit]
      simp [hbit]
  · rw [mapFind_mapInsert_ne _ _ _ _ hs]
    simp [hs]

theorem mapFind_accumulateW_other {K : Type} [LinearOrderedField K]
    (w : List (Nat × Matrix K)) (s bit b : Nat) (d : K) (s1 : Nat) (h : s1 ≠ s) :
    mapFind s1 (accumulateW w s bit b d) = mapFind s1 w := by
  unfold accumulateW
  exact mapFind_mapInsert_ne _ _ _ _ h

theorem numBuckets_growBuckets_of_lt {K : Type} [LinearOrderedField K] (c : SDRClassifier K)
    (b : Nat) (hb : b < numBuckets c) : numBuckets (growBuckets c b) = numBuckets c := by
  unfold numBuckets growBuckets at *
  cases h : c.maxBucketIdx_ with
  | none => rw [h] at hb; exact absurd hb (Nat.not_lt_zero _)
  | some m =>
    rw [h] at hb
    simp only at hb ⊢
    have : max m b = m := max_eq_left (by omega)
    rw [this]

theorem bucketLoop_read {K : Type} [LinearOrderedField K] (f : Nat → K) (s bit : Nat)
    (s1 bit1 b1 : Nat) (n : Nat) (c : SDRClassifier K) :
    readWeight ((List.range n).foldl (fun c2 b => accumulate c2 s bit b (f b)) c).weightMatrix_
        s1 bit1 b1
      = readWeight c.weightMatrix_ s1 bit1 b1
        + (if s1 = s ∧ bit1 = bit ∧ b1 < n then f b1 else 0) := by
  induction n with
  | zero => simp
  | succ n ih =>
    rw [List.range_succ, List.foldl_append]
    simp only [List.foldl_cons, List.foldl_nil]
    have hacc : ∀ (d : SDRClassifier K) (b : Nat) (x : K),
        (accumulate d s bit b x).weightMatrix_ = accumulateW d.weightMatrix_ s bit b x :=
      fun _ _ _ => rfl
    rw [hacc, readWeight_accumulateW, ih, add_assoc]
    congr 1
    by_cases h1 : s1 = s ∧ bit1 = bit
    · obtain ⟨hs, hbit⟩ := h1
      by_cases h2 : b1 < n
      · have h3 : b1 ≠ n := Nat.ne_of_lt h2
        have h4 : b1 < n + 1 := Nat.lt_succ_of_lt h2
        simp [hs, hbit, h2, h3, h4]
      · by_cases h3 : b1 = n
        · subst h3
          simp [hs, hbit]
        · have h4 : ¬ b1 < n + 1 := by omega
          simp [hs, hbit, h2, h3, h4]
    · have h5 : ¬ (s1 = s ∧ bit1 = bit ∧ b1 < n) := fun h => h1 ⟨h.1, h.2.1⟩
      have h6 : ¬ (s1 = s ∧ bit1 = bit ∧ b1 = n) := fun h => h1 ⟨h.1, h.2.1⟩
      have h7 : ¬ (s1 = s ∧ bit1 = bit ∧ b1 < n + 1) := fun h => h1 ⟨h.1, h.2.1⟩
      rw [if_neg h5, if_neg h6, if_neg h7, add_zero]

theorem patternLoop_read {K : Type} [LinearOrderedField K] (f : Nat → K) (s : Nat)
    (s1 bit1 b1 : Nat) (n : Nat) (pattern : List Nat) (c : SDRClassifier K) :
    readWeight (pattern.foldl (fun c1 bit =>
        (List.range n).foldl (fun c2 b => accumulate c2 s bit b (f b)) c1) c).weightMatrix_
        s1 bit1 b1
      = readWeight c.weightMatrix_ s1 bit1 b1
        + (pattern.count bit1 : K) * (if s1 = s ∧ b1 < n then f b1 else 0) := by
  induction pattern generalizing c with
  | nil => simp
  | cons bit rest ih =>
    rw [List.foldl_cons, ih, bucketLoop_read, add_assoc]
    congr 1
    by_cases hbit : bit1 = bit
    · subst hbit
      rw [List.count_cons_self]
      by_cases h : s1 = s ∧ b1 < n
      · have h2 : s1 = s ∧ bit1 = bit1 ∧ b1 < n := ⟨h.1, rfl, h.2⟩
        rw [if_pos h, if_pos h2]
        push_cast
        ring
      · have h2 : ¬ (s1 = s ∧ bit1 = bit1 ∧ b1 < n) := fun h3 => h ⟨h3.1, h3.2.2⟩
        rw [if_neg h, if_neg h2]
        ring
    · have h2 : ¬ (s1 = s ∧ bit1 = bit ∧ b1 < n) := fun h3 => hbit h3.2.1
      rw [if_neg h2, List.count_cons_of_ne hbit, zero_add]

/-! ## Learner: the claims -/

theorem calculateError_length {K : Type} [LinearOrderedField K] (expf : K → K)
    (c : SDRClassifier K) (bucketIdxList pattern : List Nat) (step : Nat) :
    (calculateError_ expf c bucketIdxList pattern step).length = numBuckets c := by
  unfold calculateError_
  rw [List.length_zipWith, softmax_length, scores_length]
  simp [targetDistribution]

/-- C7: for a learning update of a step with a matched historical pattern (a set of active
bits, no bit listed twice): the error vector has one entry per bucket of
`[0, maxBucketIdx]`, with `error[b] = target[b] - predicted[b]` where `predicted` is the
softmax of the current weights over the historical pattern; afterwards the weight at
`(bit, b)` of that step is the old one plus `alpha * error[b]` for every active bit of the
pattern and every such bucket, and the weights of all other bits are unchanged. -/
theorem learning_update {K : Type} [LinearOrderedField K] (expf : K → K)
    (c : SDRClassifier K) (recordNum : Nat) (bucketIdxList : List Nat) (step : Nat)
    (pattern : List Nat) (hmatch : lookup c step recordNum = some pattern)
    (hset : pattern.Nodup) :
    (calculateError_ expf c bucketIdxList pattern step).length = numBuckets c ∧
    (∀ b, b < numBuckets c →
      ∃ t p, (targetDistribution c bucketIdxList)[b]? = some t ∧
        (softmax_ expf (scores c step pattern))[b]? = some p ∧
        (calculateError_ expf c bucketIdxList pattern step)[b]? = some (t - p)) ∧
    (∀ bit ∈ pattern, ∀ b, b < numBuckets c →
      readWeight (learnStep expf c recordNum bucketIdxList step).weightMatrix_ step bit b
        = readWeight c.weightMatrix_ step bit b
          + c.alpha_ * (calculateError_ expf c bucketIdxList pattern step).getD b 0) ∧
    (∀ bit, bit ∉ pattern → ∀ b,
      readWeight (learnStep expf c recordNum bucketIdxList step).weightMatrix_ step bit b
        = readWeight c.weightMatrix_ step bit b) := by
  have hlen := calculateError_length expf c bucketIdxList pattern step
  have hstep : learnStep expf c recordNum bucketIdxList step
      = pattern.foldl (fun c1 bit =>
          (List.range (calculateError_ expf c bucketIdxList pattern step).length).foldl
            (fun c2 b => accumulate c2 step bit b
              (c.alpha_ * (calculateError_ expf c bucketIdxList pattern step).getD b 0)) c1) c := by
    unfold learnStep applyError
    rw [hmatch]
  refine ⟨hlen, ?_, ?_, ?_⟩
  · intro b hb
    have ht : b < (targetDistribution c bucketIdxList).length := by
      simpa [targetDistribution] using hb
    have hp : b < (softmax_ expf (scores c step pattern)).length := by
      rw [softmax_length, scores_length]
      exact hb
    refine ⟨(targetDistribution c bucketIdxList)[b], (softmax_ expf (scores c step pattern))[b],
      List.getElem?_eq_getElem ht, List.getElem?_eq_getElem hp, ?_⟩
    unfold calculateError_
    rw [List.getElem?_zipWith, List.getElem?_eq_getElem ht, List.getElem?_eq_getElem hp]
  · intro bit hbit b hb
    rw [hstep, patternLoop_read, hlen, List.count_eq_one_of_mem hset hbit]
    simp [hb]
  · intro bit hbit b
    rw [hstep, patternLoop_read, List.count_eq_zero_of_not_mem hbit]
    simp

/-- Witness for C7 on `matchedQ`: step 1 at record 1 matches the pattern `{1,3}`. -/
theorem learning_update_witness :
    lookup matchedQ 1 1 = some [1, 3] ∧ [1, 3].Nodup ∧
    ((calculateError_ expQ matchedQ [1] [1, 3] 1).length = numBuckets matchedQ ∧
    (∀ b, b < numBuckets matchedQ →
      ∃ t p, (targetDistribution matchedQ [1])[b]? = some t ∧
        (softmax_ expQ (scores matchedQ 1 [1, 3]))[b]? = some p ∧
        (calculateError_ expQ matchedQ [1] [1, 3] 1)[b]? = some (t - p)) ∧
    (∀ bit ∈ [1, 3], ∀ b, b < numBuckets matchedQ →
      readWeight (learnStep expQ matchedQ 1 [1] 1).weightMatrix_ 1 bit b
        = readWeight matchedQ.weightMatrix_ 1 bit b
          + matchedQ.alpha_ * (calculateError_ expQ matchedQ [1] [1, 3] 1).getD b 0) ∧
    (∀ bit, bit ∉ [1, 3] → ∀ b,
      readWeight (learnStep expQ matchedQ 1 [1] 1).weightMatrix_ 1 bit b
        = readWeight matchedQ.weightMatrix_ 1 bit b)) :=
  ⟨by decide, by decide, learning_update expQ matchedQ 1 [1] 1 [1, 3] (by decide) (by decide)⟩

/-! ## History lookup and gaps: lemmas and claim -/

theorem foldl_inv {α β : Type} (P : β → Prop) (f : β → α → β) (l : List α)
    (h : ∀ b a, a ∈ l → P b → P (f b a)) (b : β) (hb : P b) : P (l.foldl f b) := by
  induction l generalizing b with
  | nil => exact hb
  | cons a rest ih =>
    rw [List.foldl_cons]
    exact ih (fun b2 a2 ha2 => h b2 a2 (List.mem_cons_of_mem _ ha2)) _
      (h b a (List.mem_cons_self _ _) hb)

theorem foldl_rel {α β : Type} (R : β → β → Prop) (f : β → α → β) (l : List α)
    (h : ∀ b b2 a, R b b2 → R (f b a) (f b2 a)) (b b2 : β) (hb : R b b2) :
    R (l.foldl f b) (l.foldl f b2) := by
  induction l generalizing b b2 with
  | nil => exact hb
  | cons a rest ih =>
    rw [List.foldl_cons, List.foldl_cons]
    exact ih _ _ (h b b2 a hb)

theorem lookup_congr {K : Type} (d d2 : SDRClassifier K) (s recordNum : Nat)
    (h : fixedPart d = fixedPart d2) : lookup d s recordNum = lookup d2 s recordNum := by
  have hp : d.patternNZHistory_ = d2.patternNZHistory_ := congrArg (fun p => p.2.2.2.2.1) h
  have hr : d.recordNumHistory_ = d2.recordNumHistory_ := congrArg (fun p => p.2.2.2.2.2.1) h
  unfold lookup
  rw [hp, hr]

theorem lookup_some {K : Type} (d : SDRClassifier K) (s recordNum : Nat) (p : List Nat)
    (h : lookup d s recordNum = some p) :
    ∃ (i : Nat) (rn : Nat), d.recordNumHistory_[i]? = some rn ∧
      d.patternNZHistory_[i]? = some p ∧ (rn : Int) = (recordNum : Int) - (s : Int) := by
  unfold lookup at h
  split at h
  · rename_i e he
    have hp : e.2 = p := Option.some.inj h
    have hpred := List.find?_some he
    have hmem := List.mem_of_find?_eq_some he
    obtain ⟨i, hi⟩ := List.getElem?_of_mem hmem
    obtain ⟨h1, h2⟩ := List.getElem?_zip_eq_some.mp hi
    exact ⟨i, e.1, h1, hp ▸ h2, of_decide_eq_true hpred⟩
  · exact Option.noConfusion h

theorem lookup_none_of_gap {K : Type} (d : SDRClassifier K) (s recordNum : Nat)
    (hgap : ∀ rn ∈ d.recordNumHistory_, (rn : Int) ≠ (recordNum : Int) - (s : Int)) :
    lookup d s recordNum = none := by
  unfold lookup
  have hnone : (d.recordNumHistory_.zip d.patternNZHistory_).find?
      (fun e => decide ((e.1 : Int) = (recordNum : Int) - (s : Int))) = none := by
    rw [List.find?_eq_none]
    intro e he
    obtain ⟨a, b⟩ := e
    have := hgap a (List.of_mem_zip he).1
    simpa using this
  rw [hnone]

theorem mapFind_accumulateW_congr {K : Type} [LinearOrderedField K]
    (w w2 : List (Nat × Matrix K)) (s t bit b : Nat) (delta : K)
    (h : mapFind s w = mapFind s w2) :
    mapFind s (accumulateW w t bit b delta) = mapFind s (accumulateW w2 t bit b delta) := by
  by_cases hts : s = t
  · subst hts
    unfold accumulateW
    simp only [mapFind_mapInsert_self, h]
  · rw [mapFind_accumulateW_other _ _ _ _ _ _ hts, mapFind_accumulateW_other _ _ _ _ _ _ hts, h]

theorem weights_growBuckets {K : Type} [LinearOrderedField K] (c : SDRClassifier K)
    (bucket : Nat) : (growBuckets c bucket).weightMatrix_ = c.weightMatrix_ := rfl

theorem weights_observe {K : Type} [LinearOrderedField K] (c : SDRClassifier K)
    (bucket : Nat) (value : K) (category : Bool) :
    (observe c bucket value category).weightMatrix_ = c.weightMatrix_ := by
  unfold observe
  simp only
  split <;> rfl

theorem applyError_other {K : Type} [LinearOrderedField K] (expf : K → K)
    (d : SDRClassifier K) (bucketIdxList : List Nat) (s t : Nat) (p : List Nat)
    (hts : s ≠ t) :
    mapFind s (applyError expf d bucketIdxList t p).weightMatrix_ = mapFind s d.weightMatrix_ := by
  have hacc : ∀ (c : SDRClassifier K) (bit b : Nat) (x : K),
      mapFind s (accumulate c t bit b x).weightMatrix_ = mapFind s c.weightMatrix_ :=
    fun c bit b x => mapFind_accumulateW_other c.weightMatrix_ t bit b x s hts
  unfold applyError
  exact foldl_keep (fun c : SDRClassifier K => mapFind s c.weightMatrix_) _
    (fun b a => foldl_keep (fun c : SDRClassifier K => mapFind s c.weightMatrix_) _
      (fun b2 a2 => hacc b2 a a2 _) _ b) _ d

theorem learnStep_other {K : Type} [LinearOrderedField K] (expf : K → K)
    (d : SDRClassifier K) (recordNum : Nat) (bucketIdxList : List Nat) (s t : Nat)
    (hts : s ≠ t) :
    mapFind s (learnStep expf d recordNum bucketIdxList t).weightMatrix_
      = mapFind s d.weightMatrix_ := by
  unfold learnStep
  split
  · rfl
  · exact applyError_other expf d bucketIdxList s t _ hts

theorem numBuckets_applyError {K : Type} [LinearOrderedField K] (expf : K → K)
    (d : SDRClassifier K) (bucketIdxList : List Nat) (t : Nat) (p : List Nat) :
    numBuckets (applyError expf d bucketIdxList t p) = numBuckets d := by
  unfold applyError
  simp only [calculateError_length]
  apply foldl_inv (fun c => numBuckets c = numBuckets d)
  · intro c1 bit _ hc1
    apply foldl_inv (fun c => numBuckets c = numBuckets d)
    · intro c2 b hb hc2
      have hlt : b < numBuckets c2 := by
        rw [hc2]
        exact List.mem_range.mp hb
      exact (numBuckets_growBuckets_of_lt c2 b hlt).trans hc2
    · exact hc1
  · rfl

theorem numBuckets_learnStep {K : Type} [LinearOrderedField K] (expf : K → K)
    (d : SDRClassifier K) (recordNum : Nat) (bucketIdxList : List Nat) (t : Nat) :
    numBuckets (learnStep expf d recordNum bucketIdxList t) = numBuckets d := by
  unfold learnStep
  split
  · rfl
  · exact numBuckets_applyError expf d bucketIdxList t _

theorem calculateError_congr {K : Type} [LinearOrderedField K] (expf : K → K)
    (d d2 : SDRClassifier K) (bucketIdxList p : List Nat) (s : Nat) (h : SameAt s d d2) :
    calculateError_ expf d bucketIdxList p s = calculateError_ expf d2 bucketIdxList p s := by
  obtain ⟨_, hw, hn⟩ := h
  unfold calculateError_ targetDistribution scores
  simp only [readWeight_eq, hw, hn]

theorem applyError_congr {K : Type} [LinearOrderedField K] (expf : K → K)
    (d d2 : SDRClassifier K) (bucketIdxList p : List Nat) (s : Nat) (h : SameAt s d d2) :
    mapFind s (applyError expf d bucketIdxList s p).weightMatrix_
      = mapFind s (applyError expf d2 bucketIdxList s p).weightMatrix_ := by
  have herr := calculateError_congr expf d d2 bucketIdxList p s h
  have halpha : d.alpha_ = d2.alpha_ := congrArg (fun q => q.2.1) h.1
  unfold applyError
  simp only [herr, halpha]
  have hacc : ∀ (e1 e2 : SDRClassifier K) (bit b : Nat) (x : K),
      mapFind s e1.weightMatrix_ = mapFind s e2.weightMatrix_ →
      mapFind s (accumulate e1 s bit b x).weightMatrix_
        = mapFind s (accumulate e2 s bit b x).weightMatrix_ :=
    fun e1 e2 bit b x he =>
      mapFind_accumulateW_congr e1.weightMatrix_ e2.weightMatrix_ s s bit b x he
  refine foldl_rel
    (fun c c2 : SDRClassifier K => mapFind s c.weightMatrix_ = mapFind s c2.weightMatrix_)
    _ _ ?_ _ _ h.2.1
  intro c1 c2 bit hc
  refine foldl_rel
    (fun c c2 : SDRClassifier K => mapFind s c.weightMatrix_ = mapFind s c2.weightMatrix_)
    _ _ ?_ _ _ hc
  intro e1 e2 b he
  exact hacc e1 e2 bit b _ he

theorem weights_record {K : Type} (c : SDRClassifier K) (recordNum : Nat)
    (patternNZ : List Nat) : (record c recordNum patternNZ).weightMatrix_ = c.weightMatrix_ := by
  unfold record
  simp only
  split <;> rfl

theorem learnStep_gap {K : Type} [LinearOrderedField K] (expf : K → K)
    (d : SDRClassifier K) (recordNum : Nat) (bucketIdxList : List Nat) (s : Nat)
    (h : lookup d s recordNum = none) : learnStep expf d recordNum bucketIdxList s = d := by
  unfold learnStep
  rw [h]

theorem learnStep_match {K : Type} [LinearOrderedField K] (expf : K → K)
    (d : SDRClassifier K) (recordNum : Nat) (bucketIdxList : List Nat) (s : Nat)
    (p : List Nat) (h : lookup d s recordNum = some p) :
    learnStep expf d recordNum bucketIdxList s = applyError expf d bucketIdxList s p := by
  unfold learnStep
  rw [h]

theorem sameAt_learnStep {K : Type} [LinearOrderedField K] (expf : K → K)
    (d cg : SDRClassifier K) (recordNum : Nat) (bucketIdxList : List Nat) (s t : Nat)
    (hts : s ≠ t) (h : SameAt s d cg) :
    SameAt s (learnStep expf d recordNum bucketIdxList t) cg :=
  ⟨(fixedPart_learnStep expf d recordNum bucketIdxList t).trans h.1,
    (learnStep_other expf d recordNum bucketIdxList s t hts).trans h.2.1,
    (numBuckets_learnStep expf d recordNum bucketIdxList t).trans h.2.2⟩

theorem fixedPart_beforeSteps {K : Type} [LinearOrderedField K] (c : SDRClassifier K)
    (recordNum : Nat) (patternNZ : List Nat) (bucketIdxList : List Nat) :
    fixedPart (beforeSteps c recordNum patternNZ bucketIdxList)
      = fixedPart (record c recordNum patternNZ) :=
  foldl_keep fixedPart _ fixedPart_growBuckets _ _

theorem weights_beforeSteps {K : Type} [LinearOrderedField K] (c : SDRClassifier K)
    (recordNum : Nat) (patternNZ : List Nat) (bucketIdxList : List Nat) :
    (beforeSteps c recordNum patternNZ bucketIdxList).weightMatrix_ = c.weightMatrix_ :=
  (foldl_keep (fun d : SDRClassifier K => d.weightMatrix_) _ weights_growBuckets _ _).trans
    (weights_record c recordNum patternNZ)

theorem weights_learn {K : Type} [LinearOrderedField K] (expf : K → K) (c : SDRClassifier K)
    (recordNum : Nat) (patternNZ : List Nat) (bucketIdxList : List Nat)
    (actValueList : List K) (category : Bool) :
    (learn_ expf (record c recordNum patternNZ) recordNum bucketIdxList actValueList
        category).weightMatrix_
      = ((beforeSteps c recordNum patternNZ bucketIdxList).steps_.foldl
          (fun d s => learnStep expf d recordNum bucketIdxList s)
          (beforeSteps c recordNum patternNZ bucketIdxList)).weightMatrix_ := by
  unfold learn_ beforeSteps
  exact foldl_keep (fun d : SDRClassifier K => d.weightMatrix_) _
    (fun b (a : Nat × K) => weights_observe b a.1 a.2 category) _ _

theorem steps_gap {K : Type} [LinearOrderedField K] (expf : K → K) (cg : SDRClassifier K)
    (recordNum : Nat) (bucketIdxList : List Nat) (s : Nat) (l : List Nat)
    (hgap : lookup cg s recordNum = none) :
    mapFind s (l.foldl (fun d t => learnStep expf d recordNum bucketIdxList t) cg).weightMatrix_
      = mapFind s cg.weightMatrix_ := by
  have key := foldl_inv
    (fun d : SDRClassifier K =>
      fixedPart d = fixedPart cg ∧ mapFind s d.weightMatrix_ = mapFind s cg.weightMatrix_)
    (fun d t => learnStep expf d recordNum bucketIdxList t) l
    (fun d t _ hd => by
      by_cases hts : s = t
      · subst hts
        have hskip := learnStep_gap expf d recordNum bucketIdxList s
          ((lookup_congr d cg s recordNum hd.1).trans hgap)
        show fixedPart (learnStep expf d recordNum bucketIdxList s) = fixedPart cg ∧
          mapFind s (learnStep expf d recordNum bucketIdxList s).weightMatrix_
            = mapFind s cg.weightMatrix_
        rw [hskip]
        exact hd
      · exact ⟨(fixedPart_learnStep expf d recordNum bucketIdxList t).trans hd.1,
          (learnStep_other expf d recordNum bucketIdxList s t hts).trans hd.2⟩)
    cg ⟨rfl, rfl⟩
  exact key.2

theorem steps_match {K : Type} [LinearOrderedField K] (expf : K → K) (cg : SDRClassifier K)
    (recordNum : Nat) (bucketIdxList : List Nat) (s : Nat) (l : List Nat) (p : List Nat)
    (hs : s ∈ l) (hnd : l.Nodup) (hmatch : lookup cg s recordNum = some p) :
    mapFind s (l.foldl (fun d t => learnStep expf d recordNum bucketIdxList t) cg).weightMatrix_
      = mapFind s (applyError expf cg bucketIdxList s p).weightMatrix_ := by
  obtain ⟨pre, post, rfl⟩ := List.append_of_mem hs
  have hpre : s ∉ pre := by
    intro h
    have := List.disjoint_of_nodup_append hnd h
    exact this (List.mem_cons_self _ _)
  have hpost : s ∉ post := by
    have h2 : (s :: post).Nodup := (List.nodup_append.mp hnd).2.1
    exact (List.nodup_cons.mp h2).1
  rw [List.foldl_append, List.foldl_cons]
  have hd : SameAt s (pre.foldl (fun d t => learnStep expf d recordNum bucketIdxList t) cg) cg :=
    foldl_inv (fun d : SDRClassifier K => SameAt s d cg)
      (fun d t => learnStep expf d recordNum bucketIdxList t) pre
      (fun d t ht hd => sameAt_learnStep expf d cg recordNum bucketIdxList s t
        (fun h => hpre (h ▸ ht)) hd)
      cg ⟨rfl, rfl, rfl⟩
  have hafter := foldl_inv
    (fun d : SDRClassifier K => mapFind s d.weightMatrix_
      = mapFind s (learnStep expf
          (pre.foldl (fun d t => learnStep expf d recordNum bucketIdxList t) cg)
          recordNum bucketIdxList s).weightMatrix_)
    (fun d t => learnStep expf d recordNum bucketIdxList t) post
    (fun d t ht hd2 => (learnStep_other expf d recordNum bucketIdxList s t
        (fun h => hpost (h ▸ ht))).trans hd2)
    _ rfl
  rw [hafter, learnStep_match expf _ recordNum bucketIdxList s p
    ((lookup_congr _ cg s recordNum hd.1).trans hmatch)]
  exact applyError_congr expf _ cg bucketIdxList p s hd

theorem lookup_first {K : Type} (d : SDRClassifier K) (s recordNum : Nat) (p : List Nat)
    (h : lookup d s recordNum = some p) :
    ∃ (i : Nat) (rn : Nat), d.recordNumHistory_[i]? = some rn ∧
      d.patternNZHistory_[i]? = some p ∧ (rn : Int) = (recordNum : Int) - (s : Int) ∧
      ∀ (j : Nat) (rn2 : Nat), j < i → d.recordNumHistory_[j]? = some rn2 →
        (rn2 : Int) ≠ (recordNum : Int) - (s : Int) := by
  unfold lookup at h
  split at h
  · rename_i e he
    have hp : e.2 = p := Option.some.inj h
    obtain ⟨hpred, pre, post, hsplit, hpre⟩ := List.find?_eq_some.mp he
    have hi : (d.recordNumHistory_.zip d.patternNZHistory_)[pre.length]? = some e := by
      rw [hsplit, List.getElem?_append_right (Nat.le_refl _), Nat.sub_self,
        List.getElem?_cons_zero]
    obtain ⟨h1, h2⟩ := List.getElem?_zip_eq_some.mp hi
    refine ⟨pre.length, e.1, h1, hp ▸ h2, of_decide_eq_true hpred, ?_⟩
    intro j rn2 hj hrn2 heq
    have hjz : (d.recordNumHistory_.zip d.patternNZHistory_)[j]? = some pre[j] := by
      rw [hsplit, List.getElem?_append_left hj, List.getElem?_eq_getElem hj]
    have hj1 := (List.getElem?_zip_eq_some.mp hjz).1
    rw [hrn2] at hj1
    have hrn : rn2 = (pre[j]).1 := Option.some.inj hj1
    have hneg := hpre pre[j] (List.getElem_mem hj)
    rw [hrn] at heq
    simp [heq] at hneg
  · exact Option.noConfusion h

theorem lookup_found {K : Type} (d : SDRClassifier K) (s recordNum : Nat)
    (hpar : d.patternNZHistory_.length = d.recordNumHistory_.length) (rn : Nat)
    (hmem : rn ∈ d.recordNumHistory_)
    (heq : (rn : Int) = (recordNum : Int) - (s : Int)) :
    ∃ p, lookup d s recordNum = some p := by
  unfold lookup
  cases hfind : (d.recordNumHistory_.zip d.patternNZHistory_).find?
      (fun e => decide ((e.1 : Int) = (recordNum : Int) - (s : Int))) with
  | some e => exact ⟨e.2, rfl⟩
  | none =>
    exfalso
    rw [List.find?_eq_none] at hfind
    obtain ⟨i, hi⟩ := List.getElem?_of_mem hmem
    have hlt : i < d.recordNumHistory_.length := by
      by_contra hge
      rw [List.getElem?_eq_none (Nat.le_of_not_lt hge)] at hi
      exact Option.noConfusion hi
    have hlt2 : i < d.patternNZHistory_.length := hpar ▸ hlt
    have hz : (d.recordNumHistory_.zip d.patternNZHistory_)[i]?
        = some (rn, d.patternNZHistory_[i]) :=
      List.getElem?_zip_eq_some.mpr ⟨hi, List.getElem?_eq_getElem hlt2⟩
    have hmemz := List.mem_iff_getElem?.mpr ⟨i, hz⟩
    have := hfind _ hmemz
    simp [heq] at this

theorem record_parallel {K : Type} (c : SDRClassifier K) (recordNum : Nat)
    (patternNZ : List Nat) (hpar : c.patternNZHistory_.length = c.recordNumHistory_.length) :
    (record c recordNum patternNZ).patternNZHistory_.length
      = (record c recordNum patternNZ).recordNumHistory_.length := by
  unfold record
  simp only
  split <;> simp [hpar]

/-- C6: a `compute` call with `learn = true` and matching list sizes on a state whose two
history buffers run in parallel succeeds, and for a step `s`: the history lookup yields a
pattern exactly when some history entry has record number `recordNum - s`, and the pattern
it yields is the pattern of the first such entry; when `s` is configured (once) and such
an entry exists, the weight matrix of step `s` after the call is the one obtained by
applying the error update with the pattern of that entry; and when no history entry has
record number `recordNum - s` (a gap), the weight matrix of step `s` is left unchanged. -/
theorem gap_skips_step {K : Type} [LinearOrderedField K] (expf : K → K)
    (c : SDRClassifier K) (recordNum : Nat) (patternNZ bucketIdxList : List Nat)
    (actValueList : List K) (category infer : Bool) (result : ClassifierResult K) (s : Nat)
    (hlen : bucketIdxList.length = actValueList.length)
    (hpar : c.patternNZHistory_.length = c.recordNumHistory_.length) :
    ∃ c1 r, compute expf c recordNum patternNZ bucketIdxList actValueList category true infer
          result = Except.ok (c1, r) ∧
      c1.recordNumHistory_ = (record c recordNum patternNZ).recordNumHistory_ ∧
      c1.patternNZHistory_ = (record c recordNum patternNZ).patternNZHistory_ ∧
      (∀ p, lookup c1 s recordNum = some p →
        ∃ (i : Nat) (rn : Nat), c1.recordNumHistory_[i]? = some rn ∧
          c1.patternNZHistory_[i]? = some p ∧ (rn : Int) = (recordNum : Int) - (s : Int) ∧
          ∀ (j : Nat) (rn2 : Nat), j < i → c1.recordNumHistory_[j]? = some rn2 →
            (rn2 : Int) ≠ (recordNum : Int) - (s : Int)) ∧
      (∀ rn ∈ c1.recordNumHistory_, (rn : Int) = (recordNum : Int) - (s : Int) →
        ∃ p, lookup c1 s recordNum = some p) ∧
      (∀ p, s ∈ c.steps_ → c.steps_.Nodup → lookup c1 s recordNum = some p →
        mapFind s c1.weightMatrix_
          = mapFind s (applyError expf (beforeSteps c recordNum patternNZ bucketIdxList)
              bucketIdxList s p).weightMatrix_) ∧
      (∀ rn ∈ c1.recordNumHistory_, (rn : Int) = (recordNum : Int) - (s : Int) →
        s ∈ c.steps_ → c.steps_.Nodup →
        ∃ (p : List Nat) (i : Nat) (rn1 : Nat), c1.recordNumHistory_[i]? = some rn1 ∧
          (rn1 : Int) = (recordNum : Int) - (s : Int) ∧
          c1.patternNZHistory_[i]? = some p ∧
          (∀ (j : Nat) (rn2 : Nat), j < i → c1.recordNumHistory_[j]? = some rn2 →
            (rn2 : Int) ≠ (recordNum : Int) - (s : Int)) ∧
          mapFind s c1.weightMatrix_
            = mapFind s (applyError expf (beforeSteps c recordNum patternNZ bucketIdxList)
                bucketIdxList s p).weightMatrix_) ∧
      ((∀ rn ∈ c1.recordNumHistory_, (rn : Int) ≠ (recordNum : Int) - (s : Int)) →
        mapFind s c1.weightMatrix_ = mapFind s c.weightMatrix_) := by
  refine ⟨_, _, compute_eq_ok expf c recordNum patternNZ bucketIdxList actValueList category
    true infer result hlen, ?_⟩
  have hfix := fixedPart_stateAfter_learn expf c recordNum patternNZ bucketIdxList
    actValueList category true
  have hfixg := (fixedPart_beforeSteps c recordNum patternNZ bucketIdxList).trans hfix.symm
  have hrn : (stateAfter expf c recordNum patternNZ bucketIdxList actValueList category
      true).recordNumHistory_ = (record c recordNum patternNZ).recordNumHistory_ :=
    congrArg (fun p => p.2.2.2.2.2.1) hfix
  have hpn : (stateAfter expf c recordNum patternNZ bucketIdxList actValueList category
      true).patternNZHistory_ = (record c recordNum patternNZ).patternNZHistory_ :=
    congrArg (fun p => p.2.2.2.2.1) hfix
  have hpar1 : (stateAfter expf c recordNum patternNZ bucketIdxList actValueList category
      true).patternNZHistory_.length
      = (stateAfter expf c recordNum patternNZ bucketIdxList actValueList category
          true).recordNumHistory_.length := by
    rw [hrn, hpn]
    exact record_parallel c recordNum patternNZ hpar
  have hw : (stateAfter expf c recordNum patternNZ bucketIdxList actValueList category
      true).weightMatrix_
      = ((beforeSteps c recordNum patternNZ bucketIdxList).steps_.foldl
          (fun d s => learnStep expf d recordNum bucketIdxList s)
          (beforeSteps c recordNum patternNZ bucketIdxList)).weightMatrix_ := by
    unfold stateAfter
    rw [if_pos rfl]
    exact weights_learn expf c recordNum patternNZ bucketIdxList actValueList category
  have hsteps : (beforeSteps c recordNum patternNZ bucketIdxList).steps_ = c.steps_ :=
    (congrArg Prod.fst (fixedPart_beforeSteps c recordNum patternNZ bucketIdxList)).trans
      (steps_record c recordNum patternNZ)
  have hmatch : ∀ p, s ∈ c.steps_ → c.steps_.Nodup →
      lookup (stateAfter expf c recordNum patternNZ bucketIdxList actValueList category true)
        s recordNum = some p →
      mapFind s (stateAfter expf c recordNum patternNZ bucketIdxList actValueList category
          true).weightMatrix_
        = mapFind s (applyError expf (beforeSteps c recordNum patternNZ bucketIdxList)
            bucketIdxList s p).weightMatrix_ := by
    intro p hs hnd hp
    rw [hw]
    exact steps_match expf _ recordNum bucketIdxList s _ p (hsteps ▸ hs) (hsteps ▸ hnd)
      ((lookup_congr _ _ s recordNum hfixg).trans hp)
  refine ⟨hrn, hpn, fun p hp => lookup_first _ s recordNum p hp,
    fun rn hmem heq => lookup_found _ s recordNum hpar1 rn hmem heq, hmatch, ?_, ?_⟩
  · intro rn hmem heq hs hnd
    obtain ⟨p, hp⟩ := lookup_found _ s recordNum hpar1 rn hmem heq
    obtain ⟨i, rn1, h1, h2, h3, h4⟩ := lookup_first _ s recordNum p hp
    exact ⟨p, i, rn1, h1, h3, h2, h4, hmatch p hs hnd hp⟩
  · intro hgap
    rw [hw, steps_gap expf _ recordNum bucketIdxList s _
      ((lookup_congr _ _ s recordNum hfixg).trans (lookup_none_of_gap _ s recordNum hgap))]
    rw [weights_beforeSteps]

/-- Witness for C6: a learning call at record 2 on the state `matchedQ`, whose history
holds record 1: for step 1 the entry with record number 2 - 1 exists and is matched. -/
theorem gap_skips_step_witness :
    ([1] : List Nat).length = ([1] : List ℚ).length ∧
    matchedQ.patternNZHistory_.length = matchedQ.recordNumHistory_.length ∧
    (1 ∈ (record matchedQ 2 [5]).recordNumHistory_ ∧
      ((1 : Nat) : Int) = ((2 : Nat) : Int) - ((1 : Nat) : Int) ∧
      lookup (record matchedQ 2 [5]) 1 2 = some [2, 4]) ∧
    ∃ c1 r, compute expQ matchedQ 2 [5] [1] [1] false true false [] = Except.ok (c1, r) ∧
      c1.recordNumHistory_ = (record matchedQ 2 [5]).recordNumHistory_ ∧
      c1.patternNZHistory_ = (record matchedQ 2 [5]).patternNZHistory_ ∧
      (∀ p, lookup c1 1 2 = some p →
        ∃ (i : Nat) (rn : Nat), c1.recordNumHistory_[i]? = some rn ∧
          c1.patternNZHistory_[i]? = some p ∧
          (rn : Int) = ((2 : Nat) : Int) - ((1 : Nat) : Int) ∧
          ∀ (j : Nat) (rn2 : Nat), j < i → c1.recordNumHistory_[j]? = some rn2 →
            (rn2 : Int) ≠ ((2 : Nat) : Int) - ((1 : Nat) : Int)) ∧
      (∀ rn ∈ c1.recordNumHistory_, (rn : Int) = ((2 : Nat) : Int) - ((1 : Nat) : Int) →
        ∃ p, lookup c1 1 2 = some p) ∧
      (∀ p, 1 ∈ matchedQ.steps_ → matchedQ.steps_.Nodup → lookup c1 1 2 = some p →
        mapFind 1 c1.weightMatrix_
          = mapFind 1 (applyError expQ (beforeSteps matchedQ 2 [5] [1]) [1] 1 p).weightMatrix_) ∧
      (∀ rn ∈ c1.recordNumHistory_, (rn : Int) = ((2 : Nat) : Int) - ((1 : Nat) : Int) →
        1 ∈ matchedQ.steps_ → matchedQ.steps_.Nodup →
        ∃ (p : List Nat) (i : Nat) (rn1 : Nat), c1.recordNumHistory_[i]? = some rn1 ∧
          (rn1 : Int) = ((2 : Nat) : Int) - ((1 : Nat) : Int) ∧
          c1.patternNZHistory_[i]? = some p ∧
          (∀ (j : Nat) (rn2 : Nat), j < i → c1.recordNumHistory_[j]? = some rn2 →
            (rn2 : Int) ≠ ((2 : Nat) : Int) - ((1 : Nat) : Int)) ∧
          mapFind 1 c1.weightMatrix_
            = mapFind 1 (applyError expQ (beforeSteps matchedQ 2 [5] [1]) [1] 1
                p).weightMatrix_) ∧
      ((∀ rn ∈ c1.recordNumHistory_, (rn : Int) ≠ ((2 : Nat) : Int) - ((1 : Nat) : Int)) →
        mapFind 1 c1.weightMatrix_ = mapFind 1 matchedQ.weightMatrix_) :=
  ⟨rfl, by decide, ⟨by decide, by decide, by decide⟩,
    gap_skips_step expQ matchedQ 2 [5] [1] [1] false false [] 1 rfl (by decide)⟩

/-! ## Sparse reads and persistence: the claims -/

/-- C8: the read accessor `get_` returns the weight stored at `m[row][col]` when that entry
exists and the default otherwise (0.0 for the weight store's `read`), a value written to
`m[row][col]` is the one read back, and the matrix after the read is the matrix before it:
no row or entry is created; a `compute` call that only infers leaves all weight matrices
as they were. -/
theorem get_reads_without_allocating {K : Type} [LinearOrderedField K] (expf : K → K)
    (m : Matrix K) (row col : Nat) (defaultVal : K) :
    (get_ m row col defaultVal).1
        = ((mapFind row m).bind (fun r => mapFind col r)).getD defaultVal ∧
      (get_ m row col defaultVal).2 = m ∧
      (∀ v : K, (get_ (mapInsert row (mapInsert col v ((mapFind row m).getD [])) m) row col
        defaultVal).1 = v) ∧
      (∀ (w : List (Nat × Matrix K)) (step : Nat),
        readWeight w step row col
          = ((mapFind step w).bind
              (fun m1 => (mapFind row m1).bind (fun r => mapFind col r))).getD 0) ∧
      (∀ (c : SDRClassifier K) (recordNum : Nat) (patternNZ bucketIdxList : List Nat)
          (actValueList : List K) (category : Bool) (result : ClassifierResult K),
        bucketIdxList.length = actValueList.length →
        ∃ c1 r, compute expf c recordNum patternNZ bucketIdxList actValueList category false
              true result = Except.ok (c1, r) ∧ c1.weightMatrix_ = c.weightMatrix_) := by
  have hval : ∀ (m1 : Matrix K) (d : K), (get_ m1 row col d).1
      = ((mapFind row m1).bind (fun r => mapFind col r)).getD d := by
    intro m1 d
    unfold get_
    cases mapFind row m1 with
    | none => rfl
    | some r =>
      simp only [Option.some_bind]
      cases mapFind col r <;> rfl
  refine ⟨hval m defaultVal, ?_, ?_, ?_, ?_⟩
  · unfold get_
    cases mapFind row m with
    | none => rfl
    | some r =>
      simp only
      cases mapFind col r <;> rfl
  · intro v
    rw [hval, mapFind_mapInsert_self, Option.some_bind, mapFind_mapInsert_self,
      Option.getD_some]
  · intro w step
    unfold readWeight
    cases mapFind step w with
    | none => rfl
    | some m1 => exact hval m1 0
  · intro c recordNum patternNZ bucketIdxList actValueList category result hlen
    refine ⟨_, _, compute_eq_ok expf c recordNum patternNZ bucketIdxList actValueList category
      false true result hlen, ?_⟩
    exact weights_record c recordNum patternNZ

/-- C9: for every classifier state `c` (reachable ones included) and every instance `fresh`
that `load_ar` is called on, loading what `save_ar` wrote for `c` succeeds and the loaded
instance compares equal to `c` under `operator==`; it agrees with `c` on all twelve
archived members. -/
theorem save_load_roundtrip {K : Type} [DecidableEq K] (c fresh : SDRClassifier K) :
    ∃ c1, load_ar (save_ar c) fresh = some c1 ∧ operator_eq c1 c = true ∧
      c1 = { c with version_ := fresh.version_ } := by
  refine ⟨_, rfl, ?_, rfl⟩
  simp [operator_eq]

/-- C10 as stated fails on `save_ar` / `load_ar`: the snapshot does not carry the version
(an instance with `version_ = 3` and one with `version_ = 2` write the same snapshot), and
loading the snapshot written by the instance with the unsupported version 3 succeeds. -/
theorem snapshot_version_counterexample :
    ({ freshQ with version_ := 3 } : SDRClassifier ℚ).version_ ≠ sdrClassifierVersion ∧
    freshQ.version_ = sdrClassifierVersion ∧
    save_ar ({ freshQ with version_ := 3 } : SDRClassifier ℚ) = save_ar freshQ ∧
    (load_ar (save_ar ({ freshQ with version_ := 3 } : SDRClassifier ℚ)) freshQ).isSome
      = true :=
  ⟨by decide, rfl, rfl, rfl⟩

/-- C10 amended: the snapshot written by `save_ar` consists of the twelve archived members
and is independent of `version_`; `load_ar` checks no version: it succeeds on every
snapshot written by `save_ar`, whatever the version of the writer, and leaves the
`version_` of the loading instance as it was. -/
theorem snapshot_has_no_version {K : Type} (c fresh : SDRClassifier K) (v : Nat) :
    (save_ar c).length = 12 ∧
    save_ar { c with version_ := v } = save_ar c ∧
    ∃ c1, load_ar (save_ar { c with version_ := v }) fresh = some c1 ∧
      c1.version_ = fresh.version_ :=
  ⟨rfl, rfl, _, rfl, rfl⟩

/-! ## Usage errors, order of learning and inference, result keys: the claims -/

/-- C11: a `compute` call in which `bucketIdxList` and `actValueList` have different
lengths fails with an error, whatever the other arguments are. -/
theorem compute_size_mismatch_fails {K : Type} [LinearOrderedField K] (expf : K → K)
    (c : SDRClassifier K) (recordNum : Nat) (patternNZ bucketIdxList : List Nat)
    (actValueList : List K) (category learn infer : Bool) (result : ClassifierResult K)
    (hlen : bucketIdxList.length ≠ actValueList.length) :
    ∃ e, compute expf c recordNum patternNZ bucketIdxList actValueList category learn infer
      result = Except.error e := by
  unfold compute
  rw [if_pos hlen]
  exact ⟨_, rfl⟩

/-- Witness for C11: two bucket indices against one actual value. -/
theorem compute_size_mismatch_fails_witness :
    ([0, 1] : List Nat).length ≠ ([5] : List ℚ).length ∧
    ∃ e, compute expQ freshQ 0 [1, 3] [0, 1] [5] false true true [] = Except.error e :=
  ⟨by decide, compute_size_mismatch_fails expQ freshQ 0 [1, 3] [0, 1] [5] false true true []
    (by decide)⟩

theorem infer_actual_values {K : Type} [LinearOrderedField K] (expf : K → K)
    (c : SDRClassifier K) (patternNZ : List Nat) (actValue : List K)
    (result : ClassifierResult K) :
    mapFind ACTUAL_VALUES (infer_ expf c patternNZ actValue result) = some (snapshot c) := by
  unfold infer_
  exact mapFind_mapInsert_self _ _ _

theorem numBuckets_growBuckets_gt {K : Type} [LinearOrderedField K] (c : SDRClassifier K)
    (bucket : Nat) : bucket < numBuckets (growBuckets c bucket) := by
  unfold numBuckets growBuckets
  cases c.maxBucketIdx_ with
  | none => simp
  | some m =>
    simp only
    have : bucket ≤ max m bucket := le_max_right _ _
    omega

theorem numBuckets_observe {K : Type} [LinearOrderedField K] (c : SDRClassifier K)
    (bucket : Nat) (value : K) (category : Bool) :
    numBuckets (observe c bucket value category) = numBuckets (growBuckets c bucket) := by
  unfold observe
  simp only
  split <;> rfl

theorem snapshot_getElem {K : Type} [LinearOrderedField K] (c : SDRClassifier K) (b : Nat)
    (hb : b < numBuckets c) : (snapshot c)[b]? = some (c.actualValues_.getD b 0) := by
  unfold snapshot
  rw [List.getElem?_map, List.getElem?_range hb]
  rfl

/-- C12: a `compute` call with `learn = true`, `infer = true` and matching list sizes
returns the state after this call's learning and a result built from that state: the
actual-value vector in the result is the snapshot of the state after learning, each step
PDF is the softmax of the scores of the weights after learning, and for a single supplied
(bucket, value) pair the vector already holds the value observed in this call. -/
theorem infer_after_learn {K : Type} [LinearOrderedField K] (expf : K → K)
    (c : SDRClassifier K) (recordNum : Nat) (patternNZ bucketIdxList : List Nat)
    (actValueList : List K) (category : Bool) (result : ClassifierResult K)
    (hlen : bucketIdxList.length = actValueList.length) :
    ∃ c1 r, compute expf c recordNum patternNZ bucketIdxList actValueList category true true
          result = Except.ok (c1, r) ∧
      c1 = learn_ expf (record c recordNum patternNZ) recordNum bucketIdxList actValueList
        category ∧
      mapFind ACTUAL_VALUES r = some (snapshot c1) ∧
      (∀ s ∈ c.steps_, mapFind (s : Int) r = some (softmax_ expf (scores c1 s patternNZ))) ∧
      (∀ (bucket : Nat) (value : K), bucketIdxList = [bucket] → actValueList = [value] →
        (snapshot c1)[bucket]?
          = some (if c.actualValuesSet_.getD bucket false then
              (1 - c.actValueAlpha_) * c.actualValues_.getD bucket 0 + c.actValueAlpha_ * value
            else value)) := by
  refine ⟨_, _, compute_eq_ok expf c recordNum patternNZ bucketIdxList actValueList category
    true true result hlen, ?_, ?_, ?_, ?_⟩
  · unfold stateAfter
    rw [if_pos rfl]
  · rw [if_pos rfl]
    exact infer_actual_values expf _ patternNZ actValueList result
  · intro s hs
    rw [if_pos rfl]
    exact infer_step_pdf expf _ patternNZ actValueList result s
      ((steps_stateAfter expf c recordNum patternNZ bucketIdxList actValueList category
        true).symm ▸ hs)
  · intro bucket value hb hv
    subst hb hv
    obtain ⟨c2, hc2, hav⟩ :=
      learn_single expf (record c recordNum patternNZ) recordNum bucket value category
    have hav2 : avPart c2 = avPart c := hav.trans (avPart_record c recordNum patternNZ)
    have hv : c2.actualValues_.getD bucket 0 = c.actualValues_.getD bucket 0 :=
      congrFun (congrArg Prod.fst hav2) bucket
    have hs : c2.actualValuesSet_.getD bucket false = c.actualValuesSet_.getD bucket false :=
      congrFun (congrArg (fun p => p.2.1) hav2) bucket
    have ha : c2.actValueAlpha_ = c.actValueAlpha_ := congrArg (fun p => p.2.2) hav2
    have hst : stateAfter expf c recordNum patternNZ [bucket] [value] category true
        = observe c2 bucket value category := by
      unfold stateAfter
      rw [if_pos rfl, hc2]
    rw [hst]
    have hnb : bucket < numBuckets (observe c2 bucket value category) := by
      rw [numBuckets_observe]
      exact numBuckets_growBuckets_gt c2 bucket
    obtain ⟨ho1, _⟩ := observe_spec c2 bucket value category
    rw [hv, hs, ha] at ho1
    rw [snapshot_getElem _ bucket hnb, List.getD_eq_getElem?_getD, ho1, Option.getD_some]

/-- Witness for C12: the second call of the end-to-end scenario on the state `matchedQ`. -/
theorem infer_after_learn_witness :
    ([1] : List Nat).length = ([1] : List ℚ).length ∧
    ∃ c1 r, compute expQ matchedQ 2 [2, 4] [1] [1] false true true [] = Except.ok (c1, r) ∧
      c1 = learn_ expQ (record matchedQ 2 [2, 4]) 2 [1] [1] false ∧
      mapFind ACTUAL_VALUES r = some (snapshot c1) ∧
      (∀ s ∈ matchedQ.steps_,
        mapFind (s : Int) r = some (softmax_ expQ (scores c1 s [2, 4]))) ∧
      (∀ (bucket : Nat) (value : ℚ), [1] = [bucket] → [1] = [value] →
        (snapshot c1)[bucket]?
          = some (if matchedQ.actualValuesSet_.getD bucket false then
              (1 - matchedQ.actValueAlpha_) * matchedQ.actualValues_.getD bucket 0
                + matchedQ.actValueAlpha_ * value
            else value)) :=
  ⟨rfl, infer_after_learn expQ matchedQ 2 [2, 4] [1] [1] false [] rfl⟩

theorem sparseColumnsLoop_ok (maxT cellsPerColumn : Nat) (cells : List Nat) (p : Nat)
    (acc : List Nat) (hcols : ∀ c ∈ cells, c / cellsPerColumn < maxT)
    (hs : List.Sorted (fun a b => a ≤ b) (p :: cells.map (fun c => c / cellsPerColumn))) :
    ∃ res, sparseColumnsLoop maxT cellsPerColumn cells p acc = Except.ok (acc ++ res) ∧
      List.Sorted (fun a b => a < b) (p :: res) ∧
      ∀ x, x ∈ res ↔ (x ∈ cells.map (fun c => c / cellsPerColumn) ∧ x ≠ p) := by
  induction cells generalizing p acc with
  | nil =>
    refine ⟨[], by simp [sparseColumnsLoop], by simp, ?_⟩
    intro x
    simp
  | cons cell rest ih =>
    rw [List.map_cons, List.sorted_cons, List.sorted_cons] at hs
    obtain ⟨hle, hge, hrest⟩ := hs
    have hpc : p ≤ cell / cellsPerColumn := hle _ (List.mem_cons_self _ _)
    have hcols2 : ∀ c ∈ rest, c / cellsPerColumn < maxT :=
      fun c hc => hcols c (List.mem_cons_of_mem _ hc)
    unfold sparseColumnsLoop
    by_cases hc : cell / cellsPerColumn = p
    · rw [if_neg (not_not.mpr hc)]
      have hs2 : List.Sorted (fun a b => a ≤ b) (p :: rest.map (fun c => c / cellsPerColumn)) :=
        List.sorted_cons.mpr ⟨fun b hb => hle b (List.mem_cons_of_mem _ hb), hrest⟩
      obtain ⟨res, h1, h2, h3⟩ := ih p acc hcols2 hs2
      refine ⟨res, h1, h2, ?_⟩
      intro x
      rw [h3, List.map_cons, List.mem_cons]
      constructor
      · rintro ⟨hx, hne⟩
        exact ⟨Or.inr hx, hne⟩
      · rintro ⟨hx | hx, hne⟩
        · exact absurd (hx.trans hc) hne
        · exact ⟨hx, hne⟩
    · have hlt : p < cell / cellsPerColumn := lt_of_le_of_ne hpc (fun h => hc h.symm)
      rw [if_pos hc, if_pos (Or.inl hlt)]
      obtain ⟨res, h1, h2, h3⟩ := ih (cell / cellsPerColumn)
        (acc ++ [cell / cellsPerColumn]) hcols2 (List.sorted_cons.mpr ⟨hge, hrest⟩)
      have h2c := List.sorted_cons.mp h2
      refine ⟨cell / cellsPerColumn :: res, by rw [h1]; simp, ?_, ?_⟩
      · refine List.sorted_cons.mpr ⟨?_, h2⟩
        intro b hb
        rcases List.mem_cons.mp hb with hb | hb
        · rw [hb]; exact hlt
        · exact lt_trans hlt (h2c.1 b hb)
      · intro x
        rw [List.mem_cons, h3, List.map_cons, List.mem_cons]
        constructor
        · rintro (hx | ⟨hx, hne⟩)
          · exact ⟨Or.inl hx, by rw [hx]; exact hc⟩
          · exact ⟨Or.inr hx, fun h => by
              have := hge x hx
              omega⟩
        · rintro ⟨hx | hx, _⟩
          · exact Or.inl hx
          · by_cases hxc : x = cell / cellsPerColumn
            · exact Or.inl hxc
            · exact Or.inr ⟨hx, hxc⟩

theorem sparseColumnsLoop_error (maxT cellsPerColumn : Nat) (cells : List Nat) (p : Nat)
    (acc : List Nat) (hp : p < maxT)
    (hcols : ∀ c ∈ cells, c / cellsPerColumn < maxT)
    (hs : ¬ List.Sorted (fun a b => a ≤ b) (p :: cells.map (fun c => c / cellsPerColumn))) :
    ∃ e, sparseColumnsLoop maxT cellsPerColumn cells p acc = Except.error e := by
  induction cells generalizing p acc with
  | nil => exact absurd (by simp) hs
  | cons cell rest ih =>
    have hcols2 : ∀ c ∈ rest, c / cellsPerColumn < maxT :=
      fun c hc => hcols c (List.mem_cons_of_mem _ hc)
    have hcm : cell / cellsPerColumn < maxT := hcols cell (List.mem_cons_self _ _)
    rw [List.map_cons] at hs
    unfold sparseColumnsLoop
    by_cases hc : cell / cellsPerColumn = p
    · rw [if_neg (not_not.mpr hc)]
      apply ih p acc hp hcols2
      intro hs2
      apply hs
      rw [List.sorted_cons] at hs2
      rw [hc]
      exact List.sorted_cons.mpr ⟨fun b hb => by
        rcases List.mem_cons.mp hb with hb | hb
        · exact hb.ge
        · exact hs2.1 b hb, List.sorted_cons.mpr hs2⟩
    · rw [if_pos hc]
      by_cases hlt : p < cell / cellsPerColumn
      · rw [if_pos (Or.inl hlt)]
        apply ih (cell / cellsPerColumn) _ hcm hcols2
        intro hs2
        apply hs
        have hs3 := List.sorted_cons.mp hs2
        exact List.sorted_cons.mpr ⟨fun b hb => by
          rcases List.mem_cons.mp hb with hb | hb
          · rw [hb]; exact hlt.le
          · exact hlt.le.trans (hs3.1 b hb), hs2⟩
      · have hne : ¬ (p < cell / cellsPerColumn ∨ p = maxT) := by
          rintro (h | h)
          · exact hlt h
          · omega
        rw [if_neg hne]
        exact ⟨_, rfl⟩

theorem sparse_cellsToColumns_cons (maxT cellsPerColumn : Nat) (cell : Nat) (rest : List Nat)
    (hcpc : 0 < cellsPerColumn) (hcell : cell / cellsPerColumn < maxT) :
    sparse_cellsToColumns maxT (cell :: rest) cellsPerColumn
      = sparseColumnsLoop maxT cellsPerColumn rest (cell / cellsPerColumn)
          [cell / cellsPerColumn] := by
  unfold sparse_cellsToColumns
  rw [if_neg (List.cons_ne_nil _ _), if_neg (not_not.mpr hcpc)]
  rw [sparseColumnsLoop, if_pos (Nat.ne_of_lt hcell), if_pos (Or.inr rfl)]
  rfl

/-- Off the marker value: for a sorted cell list whose column indices are all below
`maxT`, the result is the strictly ascending list of the distinct column indices. -/
theorem sparse_cellsToColumns_sorted (maxT cellsPerColumn : Nat) (cells : List Nat)
    (hcpc : 0 < cellsPerColumn) (hcols : ∀ c ∈ cells, c / cellsPerColumn < maxT)
    (hs : List.Sorted (fun a b => a ≤ b) cells) :
    ∃ res, sparse_cellsToColumns maxT cells cellsPerColumn = Except.ok res ∧
      List.Sorted (fun a b => a < b) res ∧
      ∀ x, x ∈ res ↔ ∃ cell ∈ cells, cell / cellsPerColumn = x := by
  cases cells with
  | nil =>
    refine ⟨[], by simp [sparse_cellsToColumns], by simp, ?_⟩
    intro x
    simp
  | cons cell rest =>
    have hcell := hcols cell (List.mem_cons_self _ _)
    have hs1 := List.sorted_cons.mp hs
    have hsc : List.Sorted (fun a b => a ≤ b)
        (cell / cellsPerColumn :: rest.map (fun c => c / cellsPerColumn)) := by
      refine List.sorted_cons.mpr ⟨?_, ?_⟩
      · intro b hb
        obtain ⟨c, hc, rfl⟩ := List.mem_map.mp hb
        exact Nat.div_le_div_right (hs1.1 c hc)
      · exact List.Pairwise.map _ (fun a b hab => Nat.div_le_div_right hab) hs1.2
    obtain ⟨res, h1, h2, h3⟩ := sparseColumnsLoop_ok maxT cellsPerColumn rest
      (cell / cellsPerColumn) [cell / cellsPerColumn]
      (fun c hc => hcols c (List.mem_cons_of_mem _ hc)) hsc
    rw [sparse_cellsToColumns_cons maxT cellsPerColumn cell rest hcpc hcell, h1]
    refine ⟨_, rfl, h2, ?_⟩
    intro x
    simp only [List.singleton_append, List.mem_cons, h3, List.mem_map]
    constructor
    · rintro (hx | ⟨⟨c, hc, rfl⟩, _⟩)
      · exact ⟨cell, Or.inl rfl, hx.symm⟩
      · exact ⟨c, Or.inr hc, rfl⟩
    · rintro ⟨c, hc | hc, rfl⟩
      · exact Or.inl (by rw [hc])
      · by_cases hxc : c / cellsPerColumn = cell / cellsPerColumn
        · exact Or.inl hxc
        · exact Or.inr ⟨⟨c, hc, rfl⟩, hxc⟩

/-- C14 fails at the value the function uses as its "no previous column" marker: the
one-cell list `[max(UInt)]` is sorted and `cellsPerColumn = 1 > 0`, the column index of
its cell is `max(UInt)`, and yet the result is the empty list. -/
theorem sparse_cellsToColumns_drops_max_column :
    List.Sorted (fun a b => a ≤ b) [maxUInt] ∧ 0 < 1 ∧ maxUInt / 1 = maxUInt ∧
    sparse_cellsToColumns maxUInt [maxUInt] 1 = Except.ok [] :=
  ⟨by simp, by decide, by decide, by rfl⟩

/-- C15 as stated fails: the list `[4, 3]` is not ascending, and with 3 cells per column
the call returns `[1]` without an exception. -/
theorem unsorted_cells_counterexample :
    ¬ List.Sorted (fun a b => a ≤ b) [4, 3] ∧ 0 < 3 ∧
    sparse_cellsToColumns maxUInt [4, 3] 3 = Except.ok [1] :=
  ⟨by decide, by decide, by rfl⟩

/-- C15 amended: for `cellsPerColumn > 0` and a list whose column indices are all below
the largest value of `T`, the call fails with an exception exactly when the column
indices `cell / cellsPerColumn` are not in ascending order; `[4,3,28,9,5]` with 3 cells
per column fails. -/
theorem sparse_cellsToColumns_rejects_unsorted_columns (maxT cellsPerColumn : Nat)
    (cells : List Nat) (hcpc : 0 < cellsPerColumn)
    (hcols : ∀ c ∈ cells, c / cellsPerColumn < maxT) :
    ((∃ e, sparse_cellsToColumns maxT cells cellsPerColumn = Except.error e) ↔
      ¬ List.Sorted (fun a b => a ≤ b) (cells.map (fun c => c / cellsPerColumn))) ∧
    (∃ e, sparse_cellsToColumns maxUInt [4, 3, 28, 9, 5] 3 = Except.error e) := by
  refine ⟨?_, ⟨_, rfl⟩⟩
  cases cells with
  | nil =>
    constructor
    · rintro ⟨e, he⟩
      simp [sparse_cellsToColumns] at he
    · intro h
      exact absurd (by simp) h
  | cons cell rest =>
    have hcell := hcols cell (List.mem_cons_self _ _)
    have hrest : ∀ c ∈ rest, c / cellsPerColumn < maxT :=
      fun c hc => hcols c (List.mem_cons_of_mem _ hc)
    rw [sparse_cellsToColumns_cons maxT cellsPerColumn cell rest hcpc hcell, List.map_cons]
    constructor
    · rintro ⟨e, he⟩ hs
      obtain ⟨res, h1, _, _⟩ := sparseColumnsLoop_ok maxT cellsPerColumn rest
        (cell / cellsPerColumn) [cell / cellsPerColumn] hrest hs
      rw [h1] at he
      exact Except.noConfusion he
    · intro hs
      exact sparseColumnsLoop_error maxT cellsPerColumn rest (cell / cellsPerColumn)
        [cell / cellsPerColumn] hcell hrest hs

/-- Witness for C15 amended: `[4, 9, 3]` with 3 cells per column and `T = UInt`. -/
theorem sparse_cellsToColumns_rejects_unsorted_columns_witness :
    0 < 3 ∧ (∀ c ∈ [4, 9, 3], c / 3 < maxUInt) ∧
    (((∃ e, sparse_cellsToColumns maxUInt [4, 9, 3] 3 = Except.error e) ↔
      ¬ List.Sorted (fun a b => a ≤ b) ([4, 9, 3].map (fun c => c / 3))) ∧
    (∃ e, sparse_cellsToColumns maxUInt [4, 3, 28, 9, 5] 3 = Except.error e)) :=
  ⟨by decide, by decide,
    sparse_cellsToColumns_rejects_unsorted_columns maxUInt 3 [4, 9, 3] (by decide)
      (by decide)⟩

/-- C16: with `cellsPerColumn = 0` every non-empty input makes `sparse_cellsToColumns` fail
with an exception, and the empty input gives the empty list without failing for every
`cellsPerColumn`, 0 included. -/
theorem sparse_cellsToColumns_zero_columns (maxT : Nat) :
    (∀ (cell : Nat) (rest : List Nat),
      ∃ e, sparse_cellsToColumns maxT (cell :: rest) 0 = Except.error e) ∧
    (∀ cellsPerColumn : Nat, sparse_cellsToColumns maxT [] cellsPerColumn = Except.ok []) ∧
    sparse_cellsToColumns maxT [] 0 = Except.ok [] := by
  refine ⟨fun cell rest => ⟨"CHECK FAILED: cellsPerColumn > 0", ?_⟩,
    fun cellsPerColumn => ?_, ?_⟩
  · unfold sparse_cellsToColumns
    rw [if_neg (List.cons_ne_nil _ _), if_pos (Nat.lt_irrefl 0)]
  · unfold sparse_cellsToColumns
    rw [if_pos rfl]
  · unfold sparse_cellsToColumns
    rw [if_pos rfl]

/-! ## VectorHelpers: unionOfVectors -/

theorem mem_set_union (v1 v2 : List Nat) (x : Nat) :
    x ∈ set_union v1 v2 ↔ x ∈ v1 ∨ x ∈ v2 := by
  induction v1, v2 using set_union.induct with
  | case1 ys => simp [set_union]
  | case2 a xs => simp [set_union]
  | case3 a xs b ys hlt ih =>
    rw [set_union, if_pos hlt, List.mem_cons, ih]
    simp only [List.mem_cons]
    tauto
  | case4 a xs b ys h1 h2 ih =>
    rw [set_union, if_neg h1, if_pos h2, List.mem_cons, ih]
    simp only [List.mem_cons]
    tauto
  | case5 a xs b ys h1 h2 ih =>
    have hab : b = a := by omega
    rw [set_union, if_neg h1, if_neg h2, List.mem_cons, ih, hab]
    simp only [List.mem_cons]
    tauto

theorem set_union_sorted (v1 v2 : List Nat) (h1 : List.Sorted (fun a b => a < b) v1)
    (h2 : List.Sorted (fun a b => a < b) v2) :
    List.Sorted (fun a b => a < b) (set_union v1 v2) := by
  induction v1, v2 using set_union.induct with
  | case1 ys => simpa [set_union] using h2
  | case2 a xs => simpa [set_union] using h1
  | case3 a xs b ys hlt ih =>
    rw [set_union, if_pos hlt]
    have s1 := List.sorted_cons.mp h1
    have s2 := List.sorted_cons.mp h2
    refine List.sorted_cons.mpr ⟨?_, ih h1 s2.2⟩
    intro z hz
    rcases (mem_set_union _ _ z).mp hz with hz | hz
    · rcases List.mem_cons.mp hz with hz | hz
      · rw [hz]; exact hlt
      · exact lt_trans hlt (s1.1 z hz)
    · exact s2.1 z hz
  | case4 a xs b ys hn hlt ih =>
    rw [set_union, if_neg hn, if_pos hlt]
    have s1 := List.sorted_cons.mp h1
    have s2 := List.sorted_cons.mp h2
    refine List.sorted_cons.mpr ⟨?_, ih s1.2 h2⟩
    intro z hz
    rcases (mem_set_union _ _ z).mp hz with hz | hz
    · exact s1.1 z hz
    · rcases List.mem_cons.mp hz with hz | hz
      · rw [hz]; exact hlt
      · exact lt_trans hlt (s2.1 z hz)
  | case5 a xs b ys hn1 hn2 ih =>
    have hab : b = a := by omega
    rw [set_union, if_neg hn1, if_neg hn2]
    have s1 := List.sorted_cons.mp h1
    have s2 := List.sorted_cons.mp h2
    refine List.sorted_cons.mpr ⟨?_, ih s1.2 s2.2⟩
    intro z hz
    rcases (mem_set_union _ _ z).mp hz with hz | hz
    · exact s1.1 z hz
    · exact hab ▸ s2.1 z hz

theorem set_union_length (v1 v2 : List Nat) :
    (set_union v1 v2).length ≤ v1.length + v2.length := by
  induction v1, v2 using set_union.induct with
  | case1 ys => simp [set_union]
  | case2 a xs => simp [set_union]
  | case3 a xs b ys hlt ih =>
    rw [set_union, if_pos hlt]
    simp only [List.length_cons] at ih ⊢
    omega
  | case4 a xs b ys h1 h2 ih =>
    rw [set_union, if_neg h1, if_pos h2]
    simp only [List.length_cons] at ih ⊢
    omega
  | case5 a xs b ys h1 h2 ih =>
    rw [set_union, if_neg h1, if_neg h2]
    simp only [List.length_cons] at ih ⊢
    omega

theorem unionOfVectors_eq (out v1 v2 : List Nat) :
    unionOfVectors out v1 v2 = set_union v1 v2 := by
  unfold unionOfVectors resize
  simp

/-- C17: for strictly ascending `v1` and `v2` and any prior content of `out`,
`unionOfVectors` leaves in `out` a strictly ascending list (so each element occurs once)
whose elements are exactly those of `v1` or `v2`; the written range fits the resized
`out`; the union of the empty list with `v2` is `v2`. -/
theorem unionOfVectors_is_sorted_union (out v1 v2 : List Nat)
    (h1 : List.Sorted (fun a b => a < b) v1) (h2 : List.Sorted (fun a b => a < b) v2) :
    List.Sorted (fun a b => a < b) (unionOfVectors out v1 v2) ∧
    (unionOfVectors out v1 v2).Nodup ∧
    (∀ x, x ∈ unionOfVectors out v1 v2 ↔ x ∈ v1 ∨ x ∈ v2) ∧
    (set_union v1 v2).length ≤ (resize out (v1.length + v2.length)).length ∧
    unionOfVectors out [] v2 = v2 := by
  have hs := set_union_sorted v1 v2 h1 h2
  refine ⟨?_, ?_, ?_, ?_, ?_⟩
  · rw [unionOfVectors_eq]
    exact hs
  · rw [unionOfVectors_eq]
    exact List.Sorted.nodup hs
  · intro x
    rw [unionOfVectors_eq]
    exact mem_set_union v1 v2 x
  · have := set_union_length v1 v2
    unfold resize
    simp only [List.length_append, List.length_take, List.length_replicate]
    omega
  · rw [unionOfVectors_eq, set_union]

/-- Witness for C17: the vectors of the unit test, with a non-empty prior `out`. -/
theorem unionOfVectors_is_sorted_union_witness :
    List.Sorted (fun a b => a < b) [1, 2, 3, 4, 25] ∧
    List.Sorted (fun a b => a < b) [1, 4, 5, 6, 7, 8] ∧
    (List.Sorted (fun a b => a < b) (unionOfVectors [9, 9] [1, 2, 3, 4, 25] [1, 4, 5, 6, 7, 8]) ∧
    (unionOfVectors [9, 9] [1, 2, 3, 4, 25] [1, 4, 5, 6, 7, 8]).Nodup ∧
    (∀ x, x ∈ unionOfVectors [9, 9] [1, 2, 3, 4, 25] [1, 4, 5, 6, 7, 8] ↔
      x ∈ [1, 2, 3, 4, 25] ∨ x ∈ [1, 4, 5, 6, 7, 8]) ∧
    (set_union [1, 2, 3, 4, 25] [1, 4, 5, 6, 7, 8]).length
      ≤ (resize [9, 9] ([1, 2, 3, 4, 25].length + [1, 4, 5, 6, 7, 8].length)).length ∧
    unionOfVectors [9, 9] [] [1, 4, 5, 6, 7, 8] = [1, 4, 5, 6, 7, 8]) :=
  ⟨by decide, by decide,
    unionOfVectors_is_sorted_union [9, 9] [1, 2, 3, 4, 25] [1, 4, 5, 6, 7, 8]
      (by decide) (by decide)⟩

/-! ## VectorHelpers: binaryToSparse and sparseToBinary -/

theorem foldl_push_filter (p : Nat → Prop) [DecidablePred p] (l init : List Nat) :
    l.foldl (fun sparse index => if p index then sparse ++ [index] else sparse) init
      = init ++ l.filter (fun index => decide (p index)) := by
  induction l generalizing init with
  | nil => simp
  | cons a rest ih =>
    rw [List.foldl_cons, ih]
    by_cases h : p a
    · simp [h]
    · simp [h]

theorem binaryToSparse_eq_filter {T : Type} [DecidableEq T] [One T] (v : List T) :
    binaryToSparse v = (List.range v.length).filter (fun i => decide (v[i]? = some 1)) := by
  unfold binaryToSparse
  rw [foldl_push_filter (fun i => v[i]? = some 1)]
  simp

/-- C18: for every vector `v`, `binaryToSparse` returns a strictly ascending list that
holds exactly the indices `i` with `v[i] = 1` (all of them below `|v|`); entries other
than 1 are inactive: `[0,0,1,1,0]` gives `[2,3]` and `[0,2,1,7]` gives `[2]`. -/
theorem binaryToSparse_active_indices {T : Type} [DecidableEq T] [One T] (v : List T) :
    List.Sorted (fun a b => a < b) (binaryToSparse v) ∧
    (∀ i : Nat, i ∈ binaryToSparse v ↔ v[i]? = some 1) ∧
    (∀ i ∈ binaryToSparse v, i < v.length) ∧
    binaryToSparse ([0, 0, 1, 1, 0] : List Nat) = [2, 3] ∧
    binaryToSparse ([0, 2, 1, 7] : List Nat) = [2] := by
  have hmem : ∀ i : Nat, i ∈ binaryToSparse v ↔ v[i]? = some 1 := by
    intro i
    rw [binaryToSparse_eq_filter, List.mem_filter, List.mem_range]
    constructor
    · rintro ⟨_, h⟩
      exact of_decide_eq_true h
    · intro h
      refine ⟨?_, decide_eq_true h⟩
      by_contra hge
      rw [List.getElem?_eq_none (Nat.le_of_not_lt hge)] at h
      exact Option.noConfusion h
  refine ⟨?_, hmem, ?_, by decide, by decide⟩
  · rw [binaryToSparse_eq_filter]
    exact List.Pairwise.filter _ (List.pairwise_lt_range _)
  · intro i hi
    have h := (hmem i).mp hi
    by_contra hge
    rw [List.getElem?_eq_none (Nat.le_of_not_lt hge)] at h
    exact Option.noConfusion h

theorem sparseToBinaryLoop_spec {T : Type} [One T] (width : Nat) (sparse : List Nat)
    (binary : List T) (hlen : binary.length = width) (hidx : ∀ i ∈ sparse, i < width) :
    ∃ b, sparseToBinaryLoop width sparse binary = some b ∧ b.length = width ∧
      ∀ i : Nat, b[i]? = if i ∈ sparse ∧ i < width then some 1 else binary[i]? := by
  induction sparse generalizing binary with
  | nil =>
    refine ⟨binary, rfl, hlen, ?_⟩
    intro i
    simp
  | cons idx rest ih =>
    have hidxlt : idx < width := hidx idx (List.mem_cons_self _ _)
    obtain ⟨b, h1, h2, h3⟩ := ih (binary.set idx 1) (by rw [List.length_set, hlen])
      (fun i hi => hidx i (List.mem_cons_of_mem _ hi))
    refine ⟨b, ?_, h2, ?_⟩
    · rw [sparseToBinaryLoop, if_pos hidxlt]
      exact h1
    · intro i
      rw [h3 i, List.getElem?_set]
      by_cases hir : i ∈ rest ∧ i < width
      · have : i ∈ idx :: rest ∧ i < width := ⟨List.mem_cons_of_mem _ hir.1, hir.2⟩
        rw [if_pos hir, if_pos this]
      · rw [if_neg hir]
        by_cases hi : idx = i
        · subst hi
          have : idx ∈ idx :: rest ∧ idx < width := ⟨List.mem_cons_self _ _, hidxlt⟩
          rw [if_pos rfl, if_pos (hlen ▸ hidxlt), if_pos this]
        · have : ¬ (i ∈ idx :: rest ∧ i < width) := by
            rintro ⟨hm, hw⟩
            rcases List.mem_cons.mp hm with hm | hm
            · exact hi hm.symm
            · exact hir ⟨hm, hw⟩
          rw [if_neg hi, if_neg this]

/-- C19: for every width `w` and every list of indices all smaller than `w` (duplicates and
any order allowed), `sparseToBinary` returns a vector of length exactly `w` whose entry
`i` is 1 when `i` occurs in the list and 0 otherwise; `[2,3]` with width 5 gives
`[0,0,1,1,0]`. -/
theorem sparseToBinary_indicator {T : Type} [Zero T] [One T] (sparse : List Nat)
    (width : Nat) (hidx : ∀ i ∈ sparse, i < width) :
    (∃ b : List T, sparseToBinary sparse width = some b ∧ b.length = width ∧
      ∀ i : Nat, i < width → b[i]? = some (if i ∈ sparse then 1 else 0)) ∧
    (sparseToBinary [2, 3] 5 : Option (List Nat)) = some [0, 0, 1, 1, 0] := by
  refine ⟨?_, by decide⟩
  obtain ⟨b, h1, h2, h3⟩ := sparseToBinaryLoop_spec width sparse
    (List.replicate width (0 : T)) (List.length_replicate _ _) hidx
  refine ⟨b, h1, h2, ?_⟩
  intro i hi
  rw [h3 i]
  by_cases hm : i ∈ sparse
  · rw [if_pos ⟨hm, hi⟩, if_pos hm]
  · rw [if_neg (fun h => hm h.1), if_neg hm, List.getElem?_replicate, if_pos hi]

/-- Witness for C19: indices with a duplicate and out of order, width 4. -/
theorem sparseToBinary_indicator_witness :
    (∀ i ∈ [3, 1, 3], i < 4) ∧
    ((∃ b : List Nat, sparseToBinary [3, 1, 3] 4 = some b ∧ b.length = 4 ∧
      ∀ i : Nat, i < 4 → b[i]? = some (if i ∈ [3, 1, 3] then 1 else 0)) ∧
    (sparseToBinary [2, 3] 5 : Option (List Nat)) = some [0, 0, 1, 1, 0]) :=
  ⟨by decide, sparseToBinary_indicator [3, 1, 3] 4 (by decide)⟩

/-! ## VectorHelpers: cellsToColumns -/

theorem columnLoop_spec (cells : List Nat) (i : Nat) (n inColumn active : Nat)
    (h : i + inColumn + n ≤ cells.length) :
    columnLoop cells i n inColumn active
      = Except.ok (((cells.drop (i + inColumn)).take n).foldl (fun a b => a ||| b) active) := by
  induction n generalizing inColumn active with
  | zero => simp [columnLoop]
  | succ n ih =>
    have hlt : i + inColumn < cells.length := by omega
    rw [columnLoop, List.getElem?_eq_getElem hlt]
    simp only
    rw [ih (inColumn + 1) _ (by omega), List.drop_eq_getElem_cons hlt]
    simp only [List.take_succ_cons, List.foldl_cons]
    rfl

theorem cellsLoop_spec (cells : List Nat) (cellsPerColumn m : Nat) (hcpc : 0 < cellsPerColumn)
    (hlen : cells.length = m * cellsPerColumn) (k fuel j : Nat) (acc : List Nat)
    (hjk : j + k = m) (hfuel : k ≤ fuel) :
    cellsLoop cells cellsPerColumn fuel (j * cellsPerColumn) acc
      = Except.ok (acc ++ (List.range' j k).map
          (fun c => orOfCells cells (c * cellsPerColumn) cellsPerColumn)) := by
  induction k generalizing fuel j acc with
  | zero =>
    have hj : j = m := by omega
    have hge : ¬ j * cellsPerColumn < cells.length := by
      rw [hlen, hj]
      exact Nat.lt_irrefl _
    cases fuel with
    | zero => simp [cellsLoop, hge]
    | succ f => simp [cellsLoop, hge]
  | succ k ih =>
    obtain ⟨f, rfl⟩ : ∃ f, fuel = f + 1 := ⟨fuel - 1, by omega⟩
    have hjm : j < m := by omega
    have hlt : j * cellsPerColumn < cells.length := by
      rw [hlen]
      exact Nat.mul_lt_mul_of_pos_right hjm hcpc
    have hfit : j * cellsPerColumn + 0 + cellsPerColumn ≤ cells.length := by
      rw [hlen]
      have : (j + 1) * cellsPerColumn ≤ m * cellsPerColumn :=
        Nat.mul_le_mul_right _ hjm
      rw [Nat.add_mul, Nat.one_mul] at this
      omega
    have hnext : j * cellsPerColumn + cellsPerColumn = (j + 1) * cellsPerColumn := by
      rw [Nat.add_mul, Nat.one_mul]
    rw [cellsLoop, if_pos hlt, columnLoop_spec cells _ cellsPerColumn 0 0 hfit]
    simp only
    rw [hnext, ih f (j + 1) _ (by omega) (by omega), List.range'_succ]
    simp [orOfCells]

theorem cellsToColumns_eq (cells : List Nat) (cellsPerColumn : Nat) (hcpc : 0 < cellsPerColumn)
    (hmul : cells.length % cellsPerColumn = 0) :
    cellsToColumns cells cellsPerColumn
      = Except.ok ((List.range (cells.length / cellsPerColumn)).map
          (fun c => orOfCells cells (c * cellsPerColumn) cellsPerColumn)) := by
  have hlen : cells.length = cells.length / cellsPerColumn * cellsPerColumn :=
    (Nat.div_mul_cancel (Nat.dvd_of_mod_eq_zero hmul)).symm
  have hfuel : cells.length / cellsPerColumn ≤ cells.length := Nat.div_le_self _ _
  have h := cellsLoop_spec cells cellsPerColumn (cells.length / cellsPerColumn) hcpc hlen
    (cells.length / cellsPerColumn) cells.length 0 [] (Nat.zero_add _) hfuel
  rw [Nat.zero_mul] at h
  unfold cellsToColumns
  rw [h, List.range_eq_range']
  rfl

theorem lor_fold_bits (l : List Nat) (a : Nat) (hl : ∀ x ∈ l, x = 0 ∨ x = 1)
    (ha : a = 0 ∨ a = 1) :
    (l.foldl (fun a b => a ||| b) a = 0 ∨ l.foldl (fun a b => a ||| b) a = 1) ∧
      (l.foldl (fun a b => a ||| b) a = 1 ↔ a = 1 ∨ 1 ∈ l) := by
  induction l generalizing a with
  | nil => simp [ha]
  | cons x rest ih =>
    have hx := hl x (List.mem_cons_self _ _)
    have hax : (a ||| x = 0 ∨ a ||| x = 1) ∧ (a ||| x = 1 ↔ a = 1 ∨ x = 1) := by
      rcases ha with ha | ha <;> rcases hx with hx | hx <;> subst ha <;> subst hx <;> decide
    obtain ⟨h1, h2⟩ := ih (a ||| x) (fun y hy => hl y (List.mem_cons_of_mem _ hy)) hax.1
    refine ⟨h1, ?_⟩
    rw [List.foldl_cons, h2, hax.2, List.mem_cons]
    constructor
    · rintro ((h | h) | h)
      · exact Or.inl h
      · exact Or.inr (Or.inl h.symm)
      · exact Or.inr (Or.inr h)
    · rintro (h | h | h)
      · exact Or.inl (Or.inl h)
      · exact Or.inl (Or.inr h.symm)
      · exact Or.inr h

theorem mem_slice_iff (cells : List Nat) (start n : Nat) (v : Nat) :
    v ∈ (cells.drop start).take n ↔ ∃ k, k < n ∧ cells[start + k]? = some v := by
  rw [List.mem_iff_getElem?]
  constructor
  · rintro ⟨k, hk⟩
    rw [List.getElem?_take] at hk
    by_cases hkn : k < n
    · rw [if_pos hkn, List.getElem?_drop] at hk
      exact ⟨k, hkn, hk⟩
    · rw [if_neg hkn] at hk
      exact Option.noConfusion hk
  · rintro ⟨k, hkn, hk⟩
    exact ⟨k, by rw [List.getElem?_take, if_pos hkn, List.getElem?_drop]; exact hk⟩

/-- C20: for `cellsPerColumn > 0` and a cell vector whose length is a multiple of it,
`cellsToColumns` returns `length / cellsPerColumn` entries, entry `c` being the bitwise OR
of the cells `c * cellsPerColumn .. (c+1) * cellsPerColumn - 1`; for 0/1 inputs each entry
is 0 or 1, and 1 exactly when at least one cell of the column is 1;
`[0,0,0, 0,1,1, 0,0,1]` with 3 gives `[0,1,1]`. -/
theorem cellsToColumns_or_of_cells (cells : List Nat) (cellsPerColumn : Nat)
    (hcpc : 0 < cellsPerColumn) (hmul : cells.length % cellsPerColumn = 0) :
    (∃ res, cellsToColumns cells cellsPerColumn = Except.ok res ∧
      res.length = cells.length / cellsPerColumn ∧
      (∀ c : Nat, c < cells.length / cellsPerColumn →
        res[c]? = some (orOfCells cells (c * cellsPerColumn) cellsPerColumn)) ∧
      ((∀ x ∈ cells, x = 0 ∨ x = 1) → ∀ c : Nat, c < cells.length / cellsPerColumn →
        ∃ v, res[c]? = some v ∧ (v = 0 ∨ v = 1) ∧
          (v = 1 ↔ ∃ k, k < cellsPerColumn ∧ cells[c * cellsPerColumn + k]? = some 1))) ∧
    cellsToColumns [0, 0, 0, 0, 1, 1, 0, 0, 1] 3 = Except.ok [0, 1, 1] := by
  refine ⟨?_, rfl⟩
  have hres : ∀ c : Nat, c < cells.length / cellsPerColumn →
      ((List.range (cells.length / cellsPerColumn)).map
        (fun c => orOfCells cells (c * cellsPerColumn) cellsPerColumn))[c]?
        = some (orOfCells cells (c * cellsPerColumn) cellsPerColumn) := by
    intro c hc
    rw [List.getElem?_map, List.getElem?_range hc]
    rfl
  refine ⟨_, cellsToColumns_eq cells cellsPerColumn hcpc hmul, by simp, hres, ?_⟩
  intro hbits c hc
  refine ⟨_, hres c hc, ?_⟩
  have hslice : ∀ x ∈ (cells.drop (c * cellsPerColumn)).take cellsPerColumn, x = 0 ∨ x = 1 :=
    fun x hx => hbits x (List.mem_of_mem_drop (List.mem_of_mem_take hx))
  obtain ⟨h1, h2⟩ := lor_fold_bits _ 0 hslice (Or.inl rfl)
  refine ⟨h1, ?_⟩
  unfold orOfCells
  rw [h2, mem_slice_iff]
  simp

/-- Witness for C20: two columns of two cells. -/
theorem cellsToColumns_or_of_cells_witness :
    0 < 2 ∧ ([0, 1, 0, 0] : List Nat).length % 2 = 0 ∧
    ((∃ res, cellsToColumns [0, 1, 0, 0] 2 = Except.ok res ∧
      res.length = ([0, 1, 0, 0] : List Nat).length / 2 ∧
      (∀ c : Nat, c < ([0, 1, 0, 0] : List Nat).length / 2 →
        res[c]? = some (orOfCells [0, 1, 0, 0] (c * 2) 2)) ∧
      ((∀ x ∈ ([0, 1, 0, 0] : List Nat), x = 0 ∨ x = 1) →
        ∀ c : Nat, c < ([0, 1, 0, 0] : List Nat).length / 2 →
        ∃ v, res[c]? = some v ∧ (v = 0 ∨ v = 1) ∧
          (v = 1 ↔ ∃ k, k < 2 ∧ ([0, 1, 0, 0] : List Nat)[c * 2 + k]? = some 1))) ∧
    cellsToColumns [0, 0, 0, 0, 1, 1, 0, 0, 1] 3 = Except.ok [0, 1, 1]) :=
  ⟨by decide, by decide, cellsToColumns_or_of_cells [0, 1, 0, 0] 2 (by decide) (by decide)⟩

/-! ## Scalar: the claims -/

theorem checkedValue_ok {R α : Type} (s : Scalar R) (t : NTA_BasicType) (v : α)
    (h : s.theType_ = t) : checkedValue s t v = Except.ok v := by
  unfold checkedValue
  rw [if_pos h]

theorem checkedValue_error {R α : Type} (s : Scalar R) (t : NTA_BasicType) (v : α)
    (h : s.theType_ ≠ t) : ∃ e, checkedValue s t v = Except.error e := by
  unfold checkedValue
  rw [if_neg h]
  exact ⟨_, rfl⟩

/-- C21: for every Scalar `s` and each of the eleven value types, `getValue<T>` returns the
value stored for that type when the type of `s` is the basic type of `T` (as after
construction with it) and fails with an exception when `s` has any other type; an Int32
Scalar holding 10 returns 10 as Int32 and throws as UInt32. -/
theorem getValue_checks_type {R : Type} [Zero R] (s : Scalar R) :
    ((s.theType_ = NTA_BasicType.Handle → s.getValue_Handle = Except.ok s.value.handle) ∧
      (s.theType_ ≠ NTA_BasicType.Handle → ∃ e, s.getValue_Handle = Except.error e)) ∧
    ((s.theType_ = NTA_BasicType.Byte → s.getValue_Byte = Except.ok s.value.byte) ∧
      (s.theType_ ≠ NTA_BasicType.Byte → ∃ e, s.getValue_Byte = Except.error e)) ∧
    ((s.theType_ = NTA_BasicType.UInt16 → s.getValue_UInt16 = Except.ok s.value.uint16) ∧
      (s.theType_ ≠ NTA_BasicType.UInt16 → ∃ e, s.getValue_UInt16 = Except.error e)) ∧
    ((s.theType_ = NTA_BasicType.Int16 → s.getValue_Int16 = Except.ok s.value.int16) ∧
      (s.theType_ ≠ NTA_BasicType.Int16 → ∃ e, s.getValue_Int16 = Except.error e)) ∧
    ((s.theType_ = NTA_BasicType.UInt32 → s.getValue_UInt32 = Except.ok s.value.uint32) ∧
      (s.theType_ ≠ NTA_BasicType.UInt32 → ∃ e, s.getValue_UInt32 = Except.error e)) ∧
    ((s.theType_ = NTA_BasicType.Int32 → s.getValue_Int32 = Except.ok s.value.int32) ∧
      (s.theType_ ≠ NTA_BasicType.Int32 → ∃ e, s.getValue_Int32 = Except.error e)) ∧
    ((s.theType_ = NTA_BasicType.UInt64 → s.getValue_UInt64 = Except.ok s.value.uint64) ∧
      (s.theType_ ≠ NTA_BasicType.UInt64 → ∃ e, s.getValue_UInt64 = Except.error e)) ∧
    ((s.theType_ = NTA_BasicType.Int64 → s.getValue_Int64 = Except.ok s.value.int64) ∧
      (s.theType_ ≠ NTA_BasicType.Int64 → ∃ e, s.getValue_Int64 = Except.error e)) ∧
    ((s.theType_ = NTA_BasicType.Real32 → s.getValue_Real32 = Except.ok s.value.real32) ∧
      (s.theType_ ≠ NTA_BasicType.Real32 → ∃ e, s.getValue_Real32 = Except.error e)) ∧
    ((s.theType_ = NTA_BasicType.Real64 → s.getValue_Real64 = Except.ok s.value.real64) ∧
      (s.theType_ ≠ NTA_BasicType.Real64 → ∃ e, s.getValue_Real64 = Except.error e)) ∧
    ((s.theType_ = NTA_BasicType.Bool → s.getValue_bool = Except.ok s.value.boolean) ∧
      (s.theType_ ≠ NTA_BasicType.Bool → ∃ e, s.getValue_bool = Except.error e)) ∧
    (∀ t : NTA_BasicType, (Scalar.create t : Scalar R).getType = t) ∧
    int32Ten.getValue_Int32 = Except.ok 10 ∧
    (∃ e, int32Ten.getValue_UInt32 = Except.error e) :=
  ⟨⟨checkedValue_ok s _ _, checkedValue_error s _ _⟩,
    ⟨checkedValue_ok s _ _, checkedValue_error s _ _⟩,
    ⟨checkedValue_ok s _ _, checkedValue_error s _ _⟩,
    ⟨checkedValue_ok s _ _, checkedValue_error s _ _⟩,
    ⟨checkedValue_ok s _ _, checkedValue_error s _ _⟩,
    ⟨checkedValue_ok s _ _, checkedValue_error s _ _⟩,
    ⟨checkedValue_ok s _ _, checkedValue_error s _ _⟩,
    ⟨checkedValue_ok s _ _, checkedValue_error s _ _⟩,
    ⟨checkedValue_ok s _ _, checkedValue_error s _ _⟩,
    ⟨checkedValue_ok s _ _, checkedValue_error s _ _⟩,
    ⟨checkedValue_ok s _ _, checkedValue_error s _ _⟩,
    fun _ => rfl,
    checkedValue_ok int32Ten _ _ rfl,
    checkedValue_error int32Ten _ _ (by decide)⟩

/-- For two Scalars of the same type other than Handle, `operator==` returns the
comparison of the values stored for that type. -/
theorem Scalar_eq_on_compared_types {R : Type} (feq : R → R → Bool) (a b : Scalar R)
    (hty : a.theType_ = b.theType_) (hh : a.theType_ ≠ NTA_BasicType.Handle) :
    Scalar.operator_eq feq a b = Except.ok (Scalar.sameStoredValue feq a b) := by
  unfold Scalar.operator_eq Scalar.sameStoredValue Scalar.getType
  rw [if_neg (not_not.mpr hty)]
  cases hta : a.theType_ <;>
    simp only [Scalar.getValue_Byte, Scalar.getValue_Int16, Scalar.getValue_UInt16,
      Scalar.getValue_Int32, Scalar.getValue_UInt32, Scalar.getValue_Int64,
      Scalar.getValue_UInt64, Scalar.getValue_Real32, Scalar.getValue_Real64,
      Scalar.getValue_bool] <;>
    first
    | (rw [checkedValue_ok b _ _ (hty ▸ hta)]; rfl)
    | exact absurd hta hh

/-- C22 fails for the type Handle: a Scalar constructed with `NTA_BasicType_Handle` has the
same type and the same stored handle as itself (or as a copy), and `operator==` on it and
a copy returns `false`, because the switch has no case for Handle. -/
theorem Scalar_eq_handle_not_reflexive :
    (Scalar.create NTA_BasicType.Handle : Scalar ℚ).theType_
      = (Scalar.create NTA_BasicType.Handle : Scalar ℚ).theType_ ∧
    (Scalar.create NTA_BasicType.Handle : Scalar ℚ).getValue_Handle = Except.ok 0 ∧
    Scalar.operator_eq (fun x y => decide (x = y))
      (Scalar.create NTA_BasicType.Handle : Scalar ℚ)
      (Scalar.create NTA_BasicType.Handle : Scalar ℚ) = Except.ok false :=
  ⟨rfl, rfl, rfl⟩

/-- C27: `Scalar::operator==` never fails: for every two Scalars it returns a boolean;
`false` when the types differ, and when they agree every `getValue<T>` call made on the
right-hand side passes its type check. -/
theorem Scalar_eq_never_throws {R : Type} (feq : R → R → Bool) (a b : Scalar R) :
    (∃ r, Scalar.operator_eq feq a b = Except.ok r) ∧
    (a.theType_ ≠ b.theType_ → Scalar.operator_eq feq a b = Except.ok false) ∧
    (a.theType_ = b.theType_ →
      (a.theType_ = NTA_BasicType.Byte → b.getValue_Byte = Except.ok b.value.byte) ∧
      (a.theType_ = NTA_BasicType.Int16 → b.getValue_Int16 = Except.ok b.value.int16) ∧
      (a.theType_ = NTA_BasicType.UInt16 → b.getValue_UInt16 = Except.ok b.value.uint16) ∧
      (a.theType_ = NTA_BasicType.Int32 → b.getValue_Int32 = Except.ok b.value.int32) ∧
      (a.theType_ = NTA_BasicType.UInt32 → b.getValue_UInt32 = Except.ok b.value.uint32) ∧
      (a.theType_ = NTA_BasicType.Int64 → b.getValue_Int64 = Except.ok b.value.int64) ∧
      (a.theType_ = NTA_BasicType.UInt64 → b.getValue_UInt64 = Except.ok b.value.uint64) ∧
      (a.theType_ = NTA_BasicType.Real32 → b.getValue_Real32 = Except.ok b.value.real32) ∧
      (a.theType_ = NTA_BasicType.Real64 → b.getValue_Real64 = Except.ok b.value.real64) ∧
      (a.theType_ = NTA_BasicType.Bool → b.getValue_bool = Except.ok b.value.boolean)) := by
  have hdiff : a.theType_ ≠ b.theType_ → Scalar.operator_eq feq a b = Except.ok false := by
    intro h
    unfold Scalar.operator_eq Scalar.getType
    rw [if_pos h]
  refine ⟨?_, hdiff, ?_⟩
  · by_cases hty : a.theType_ = b.theType_
    · by_cases hh : a.theType_ = NTA_BasicType.Handle
      · refine ⟨false, ?_⟩
        unfold Scalar.operator_eq Scalar.getType
        rw [if_neg (not_not.mpr hty), hh]
      · exact ⟨_, Scalar_eq_on_compared_types feq a b hty hh⟩
    · exact ⟨false, hdiff hty⟩
  · intro hty
    exact ⟨fun h => checkedValue_ok b _ _ (hty ▸ h), fun h => checkedValue_ok b _ _ (hty ▸ h),
      fun h => checkedValue_ok b _ _ (hty ▸ h), fun h => checkedValue_ok b _ _ (hty ▸ h),
      fun h => checkedValue_ok b _ _ (hty ▸ h), fun h => checkedValue_ok b _ _ (hty ▸ h),
      fun h => checkedValue_ok b _ _ (hty ▸ h), fun h => checkedValue_ok b _ _ (hty ▸ h),
      fun h => checkedValue_ok b _ _ (hty ▸ h), fun h => checkedValue_ok b _ _ (hty ▸ h)⟩

/-! ## Value: serialization -/

/-- C28: for every Value `v` of category scalar, array or string, `save_ar` writes the
category followed by exactly the member of that category, and `load_ar` on that sequence
(into any instance) reads it completely and ends with the category of `v` and the same
member for that category. -/
theorem value_save_load_roundtrip {R A : Type} (v fresh : Value R A)
    (hcat : v.category_ = Category.scalar ∨ v.category_ = Category.array ∨
      v.category_ = Category.string) :
    (v.category_ = Category.scalar →
      v.save_ar = [ValueItem.category Category.scalar, ValueItem.scalar v.scalar_]) ∧
    (v.category_ = Category.array →
      v.save_ar = [ValueItem.category Category.array, ValueItem.array v.array_]) ∧
    (v.category_ = Category.string →
      v.save_ar = [ValueItem.category Category.string, ValueItem.string v.string_]) ∧
    ∃ v1, Value.load_ar v.save_ar fresh = some (v1, []) ∧ v1.category_ = v.category_ ∧
      (v.category_ = Category.scalar → v1.scalar_ = v.scalar_) ∧
      (v.category_ = Category.array → v1.array_ = v.array_) ∧
      (v.category_ = Category.string → v1.string_ = v.string_) := by
  rcases hcat with h | h | h
  · refine ⟨fun _ => by simp [Value.save_ar, h], fun h2 => by simp [h] at h2,
      fun h2 => by simp [h] at h2, ?_⟩
    refine ⟨{ fresh with category_ := Category.scalar, scalar_ := v.scalar_ }, ?_, h.symm,
      fun _ => rfl, fun h2 => by simp [h] at h2, fun h2 => by simp [h] at h2⟩
    simp [Value.save_ar, Value.load_ar, h]
  · refine ⟨fun h2 => by simp [h] at h2, fun _ => by simp [Value.save_ar, h],
      fun h2 => by simp [h] at h2, ?_⟩
    refine ⟨{ fresh with category_ := Category.array, array_ := v.array_ }, ?_, h.symm,
      fun h2 => by simp [h] at h2, fun _ => rfl, fun h2 => by simp [h] at h2⟩
    simp [Value.save_ar, Value.load_ar, h]
  · refine ⟨fun h2 => by simp [h] at h2, fun h2 => by simp [h] at h2,
      fun _ => by simp [Value.save_ar, h], ?_⟩
    refine ⟨{ fresh with category_ := Category.string, string_ := v.string_ }, ?_, h.symm,
      fun h2 => by simp [h] at h2, fun h2 => by simp [h] at h2, fun _ => rfl⟩
    simp [Value.save_ar, Value.load_ar, h]

/-- Witness for C28: the scalar Value of the unit test, loaded into a string Value. -/
theorem value_save_load_roundtrip_witness :
    (scalarValueQ.category_ = Category.scalar ∨ scalarValueQ.category_ = Category.array ∨
      scalarValueQ.category_ = Category.string) ∧
    ((scalarValueQ.category_ = Category.scalar →
      scalarValueQ.save_ar
        = [ValueItem.category Category.scalar, ValueItem.scalar scalarValueQ.scalar_]) ∧
    (scalarValueQ.category_ = Category.array →
      scalarValueQ.save_ar
        = [ValueItem.category Category.array, ValueItem.array scalarValueQ.array_]) ∧
    (scalarValueQ.category_ = Category.string →
      scalarValueQ.save_ar
        = [ValueItem.category Category.string, ValueItem.string scalarValueQ.string_]) ∧
    ∃ v1, Value.load_ar scalarValueQ.save_ar stringValueQ = some (v1, []) ∧
      v1.category_ = scalarValueQ.category_ ∧
      (scalarValueQ.category_ = Category.scalar → v1.scalar_ = scalarValueQ.scalar_) ∧
      (scalarValueQ.category_ = Category.array → v1.array_ = scalarValueQ.array_) ∧
      (scalarValueQ.category_ = Category.string → v1.string_ = scalarValueQ.string_)) :=
  ⟨Or.inl rfl, value_save_load_roundtrip scalarValueQ stringValueQ (Or.inl rfl)⟩

/-! ## VectorHelpers: the marker of sparse_cellsToColumns, round trips, safety -/

theorem sparseColumnsLoop_marker (maxT : Nat) (n : Nat) (acc : List Nat) :
    sparseColumnsLoop maxT 1 (List.replicate n maxT) maxT acc = Except.ok acc := by
  induction n with
  | zero => rfl
  | succ n ih =>
    rw [List.replicate_succ, sparseColumnsLoop, if_neg (not_not.mpr (Nat.div_one maxT))]
    exact ih

/-- C24 fails when the column index equals the largest value of `T`: for every `T` (with
largest value `maxT`) and every non-empty list of cells all equal to `maxT`, the list is
sorted and `cellsPerColumn = 1 > 0`, every cell has column index `maxT`, and the result is
the empty list, in which that column index does not occur. -/
theorem sparse_cellsToColumns_marker_collision (maxT n : Nat) :
    List.Sorted (fun a b => a ≤ b) (List.replicate (n + 1) maxT) ∧
    List.replicate (n + 1) maxT ≠ [] ∧ 0 < 1 ∧
    (∀ cell ∈ List.replicate (n + 1) maxT, cell / 1 = maxT) ∧
    sparse_cellsToColumns maxT (List.replicate (n + 1) maxT) 1 = Except.ok [] ∧
    maxT ∉ ([] : List Nat) := by
  refine ⟨?_, by simp, by decide, ?_, ?_, by simp⟩
  · apply List.pairwise_replicate.mpr
    exact Or.inr (le_refl _)
  · intro cell hc
    rw [List.eq_of_mem_replicate hc, Nat.div_one]
  · unfold sparse_cellsToColumns
    rw [if_neg (by simp), if_neg (by decide)]
    exact sparseColumnsLoop_marker maxT (n + 1) []

theorem mem_binaryToSparse {T : Type} [DecidableEq T] [One T] (v : List T) (i : Nat) :
    i ∈ binaryToSparse v ↔ v[i]? = some 1 := by
  rw [binaryToSparse_eq_filter, List.mem_filter, List.mem_range]
  constructor
  · rintro ⟨_, h⟩
    exact of_decide_eq_true h
  · intro h
    refine ⟨?_, decide_eq_true h⟩
    by_contra hge
    rw [List.getElem?_eq_none (Nat.le_of_not_lt hge)] at h
    exact Option.noConfusion h

theorem lt_length_of_mem_binaryToSparse {T : Type} [DecidableEq T] [One T] (v : List T)
    (i : Nat) (h : i ∈ binaryToSparse v) : i < v.length := by
  have h1 := (mem_binaryToSparse v i).mp h
  by_contra hge
  rw [List.getElem?_eq_none (Nat.le_of_not_lt hge)] at h1
  exact Option.noConfusion h1

theorem filter_range_mem_eq (s : List Nat) (w : Nat) (hs : List.Sorted (fun a b => a < b) s)
    (hw : ∀ i ∈ s, i < w) : (List.range w).filter (fun i => decide (i ∈ s)) = s := by
  have hsf : List.Sorted (fun a b => a < b) ((List.range w).filter (fun i => decide (i ∈ s))) :=
    List.Pairwise.filter _ (List.pairwise_lt_range _)
  apply List.eq_of_perm_of_sorted _ hsf hs
  rw [List.perm_ext_iff_of_nodup (List.Sorted.nodup hsf) (List.Sorted.nodup hs)]
  intro x
  rw [List.mem_filter, List.mem_range]
  constructor
  · rintro ⟨_, h⟩
    exact of_decide_eq_true h
  · intro h
    exact ⟨hw x h, decide_eq_true h⟩

/-- C25: `binaryToSparse` undoes `sparseToBinary`: for every width `w` and every strictly
ascending list `s` of indices all smaller than `w`, `sparseToBinary(s, w)` returns a vector
whose `binaryToSparse` is `s`; and for every vector `b` whose entries are all 0 or 1,
`sparseToBinary(binaryToSparse(b), |b|)` returns `b`. -/
theorem sparse_binary_roundtrip {T : Type} [DecidableEq T] [Zero T] [One T]
    [NeZero (1 : T)] :
    (∀ (w : Nat) (s : List Nat), List.Sorted (fun a b => a < b) s → (∀ i ∈ s, i < w) →
      ∃ b : List T, sparseToBinary s w = some b ∧ binaryToSparse b = s) ∧
    (∀ b : List T, (∀ x ∈ b, x = 0 ∨ x = 1) →
      sparseToBinary (binaryToSparse b) b.length = some b) := by
  have h10 : (1 : T) ≠ 0 := NeZero.ne 1
  constructor
  · intro w s hs hw
    obtain ⟨b, h1, h2, h3⟩ := sparseToBinaryLoop_spec w s
      (List.replicate w (0 : T)) (List.length_replicate _ _) hw
    refine ⟨b, h1, ?_⟩
    rw [binaryToSparse_eq_filter, h2]
    refine Eq.trans (List.filter_congr ?_) (filter_range_mem_eq s w hs hw)
    intro i hi
    have hiw : i < w := List.mem_range.mp hi
    rw [h3 i]
    by_cases hm : i ∈ s
    · simp [hm, hiw]
    · have : ¬ (i ∈ s ∧ i < w) := fun h => hm h.1
      rw [if_neg this, List.getElem?_replicate, if_pos hiw]
      simp [hm, h10.symm]
  · intro b hb
    obtain ⟨b1, h1, h2, h3⟩ := sparseToBinaryLoop_spec b.length (binaryToSparse b)
      (List.replicate b.length (0 : T)) (List.length_replicate _ _)
      (fun i hi => lt_length_of_mem_binaryToSparse b i hi)
    have hb1 : b1 = b := by
      apply List.ext_getElem?
      intro i
      rw [h3 i]
      by_cases hi : i < b.length
      · have hx := hb b[i] (List.getElem_mem hi)
        have hget : b[i]? = some b[i] := List.getElem?_eq_getElem hi
        rcases hx with hx | hx
        · have hnm : ¬ (i ∈ binaryToSparse b ∧ i < b.length) := by
            rintro ⟨hm, _⟩
            have := (mem_binaryToSparse b i).mp hm
            rw [hget, hx] at this
            exact h10 (Option.some.inj this).symm
          rw [if_neg hnm, List.getElem?_replicate, if_pos hi, hget, hx]
        · have hm : i ∈ binaryToSparse b ∧ i < b.length :=
            ⟨(mem_binaryToSparse b i).mpr (by rw [hget, hx]), hi⟩
          rw [if_pos hm, hget, hx]
      · have hnm : ¬ (i ∈ binaryToSparse b ∧ i < b.length) := fun h => hi h.2
        rw [if_neg hnm, List.getElem?_replicate, if_neg hi,
          List.getElem?_eq_none (Nat.le_of_not_lt hi)]
    unfold sparseToBinary
    rw [h1, hb1]

theorem cellsLoop_no_progress (cells : List Nat) (hne : 0 < cells.length) (fuel : Nat)
    (acc : List Nat) : cellsLoop cells 0 fuel 0 acc = Except.error Fault.diverges := by
  induction fuel generalizing acc with
  | zero => rw [cellsLoop, if_pos hne]
  | succ f ih =>
    rw [cellsLoop, if_pos hne, columnLoop]
    exact ih _

theorem columnLoop_out_of_range (cells : List Nat) (i : Nat) (n inColumn active : Nat)
    (hlo : i + inColumn ≤ cells.length) (hhi : cells.length < i + inColumn + n) :
    columnLoop cells i n inColumn active = Except.error Fault.outOfRange := by
  induction n generalizing inColumn active with
  | zero => omega
  | succ n ih =>
    by_cases hlt : i + inColumn < cells.length
    · rw [columnLoop, List.getElem?_eq_getElem hlt]
      exact ih (inColumn + 1) _ (by omega) (by omega)
    · rw [columnLoop, List.getElem?_eq_none (Nat.le_of_not_lt hlt)]

theorem cellsLoop_out_of_range (cells : List Nat) (cellsPerColumn m r : Nat)
    (hr0 : 0 < r) (hr : r < cellsPerColumn) (hlen : cells.length = m * cellsPerColumn + r)
    (k fuel j : Nat) (acc : List Nat) (hjk : j + k = m) (hfuel : k + 1 ≤ fuel) :
    cellsLoop cells cellsPerColumn fuel (j * cellsPerColumn) acc
      = Except.error Fault.outOfRange := by
  induction k generalizing fuel j acc with
  | zero =>
    obtain ⟨f, rfl⟩ : ∃ f, fuel = f + 1 := ⟨fuel - 1, by omega⟩
    have hj : j = m := by omega
    subst hj
    have hlt : j * cellsPerColumn < cells.length := by omega
    rw [cellsLoop, if_pos hlt,
      columnLoop_out_of_range cells _ cellsPerColumn 0 0 (by omega) (by omega)]
  | succ k ih =>
    obtain ⟨f, rfl⟩ : ∃ f, fuel = f + 1 := ⟨fuel - 1, by omega⟩
    have hjm : j + 1 ≤ m := by omega
    have hmul : (j + 1) * cellsPerColumn ≤ m * cellsPerColumn := Nat.mul_le_mul_right _ hjm
    have hnext : j * cellsPerColumn + cellsPerColumn = (j + 1) * cellsPerColumn := by
      rw [Nat.add_mul, Nat.one_mul]
    have hlt : j * cellsPerColumn < cells.length := by omega
    rw [cellsLoop, if_pos hlt, columnLoop_spec cells _ cellsPerColumn 0 0 (by omega)]
    simp only
    rw [hnext]
    exact ih f (j + 1) _ (by omega) (by omega)

/-- C26: for `cellsPerColumn > 0` and a cell vector whose length is a multiple of it,
`cellsToColumns` terminates with a result and every index `i + inColumn` it reads lies
within the vector; a missing hypothesis makes the fault reachable: with
`cellsPerColumn = 0` every non-empty vector gives a loop that never advances, and with a
length that is not a multiple of `cellsPerColumn > 0` a read leaves the vector. -/
theorem cellsToColumns_safe (cells : List Nat) (cellsPerColumn : Nat)
    (hcpc : 0 < cellsPerColumn) (hmul : cells.length % cellsPerColumn = 0) :
    (∃ res, cellsToColumns cells cellsPerColumn = Except.ok res) ∧
    cellsToColumns cells cellsPerColumn ≠ Except.error Fault.outOfRange ∧
    cellsToColumns cells cellsPerColumn ≠ Except.error Fault.diverges ∧
    (∀ c inColumn : Nat, c < cells.length / cellsPerColumn → inColumn < cellsPerColumn →
      c * cellsPerColumn + inColumn < cells.length) ∧
    (∀ cells2 : List Nat, cells2 ≠ [] →
      cellsToColumns cells2 0 = Except.error Fault.diverges) ∧
    (∀ (cells2 : List Nat) (cpc2 : Nat), 0 < cpc2 → cells2.length % cpc2 ≠ 0 →
      cellsToColumns cells2 cpc2 = Except.error Fault.outOfRange) := by
  have hok := cellsToColumns_eq cells cellsPerColumn hcpc hmul
  refine ⟨⟨_, hok⟩, ?_, ?_, ?_, ?_, ?_⟩
  · rw [hok]
    exact fun h => Except.noConfusion h
  · rw [hok]
    exact fun h => Except.noConfusion h
  · intro c inColumn hc hin
    have hlen : cells.length / cellsPerColumn * cellsPerColumn = cells.length :=
      Nat.div_mul_cancel (Nat.dvd_of_mod_eq_zero hmul)
    have h1 : (c + 1) * cellsPerColumn ≤ cells.length / cellsPerColumn * cellsPerColumn :=
      Nat.mul_le_mul_right _ hc
    rw [Nat.add_mul, Nat.one_mul] at h1
    omega
  · intro cells2 hne
    unfold cellsToColumns
    exact cellsLoop_no_progress cells2 (List.length_pos.mpr hne) _ _
  · intro cells2 cpc2 hpos hrem
    have hdiv := Nat.div_add_mod cells2.length cpc2
    have hlt := Nat.mod_lt cells2.length hpos
    have hge : cells2.length / cpc2 ≤ cells2.length / cpc2 * cpc2 :=
      Nat.le_mul_of_pos_right _ hpos
    have h := cellsLoop_out_of_range cells2 cpc2 (cells2.length / cpc2)
      (cells2.length % cpc2) (Nat.pos_of_ne_zero hrem) hlt
      (by rw [Nat.mul_comm]; exact hdiv.symm)
      (cells2.length / cpc2) cells2.length 0 [] (Nat.zero_add _) (by
        have : cells2.length = cells2.length / cpc2 * cpc2 + cells2.length % cpc2 := by
          rw [Nat.mul_comm]; exact hdiv.symm
        have hpos2 := Nat.pos_of_ne_zero hrem
        omega)
    rw [Nat.zero_mul] at h
    exact h

/-- Witness for C26: the three-by-three vector of the unit test. -/
theorem cellsToColumns_safe_witness :
    0 < 3 ∧ ([0, 0, 0, 0, 1, 1, 0, 0, 1] : List Nat).length % 3 = 0 ∧
    ((∃ res, cellsToColumns [0, 0, 0, 0, 1, 1, 0, 0, 1] 3 = Except.ok res) ∧
    cellsToColumns [0, 0, 0, 0, 1, 1, 0, 0, 1] 3 ≠ Except.error Fault.outOfRange ∧
    cellsToColumns [0, 0, 0, 0, 1, 1, 0, 0, 1] 3 ≠ Except.error Fault.diverges ∧
    (∀ c inColumn : Nat, c < ([0, 0, 0, 0, 1, 1, 0, 0, 1] : List Nat).length / 3 →
      inColumn < 3 →
      c * 3 + inColumn < ([0, 0, 0, 0, 1, 1, 0, 0, 1] : List Nat).length) ∧
    (∀ cells2 : List Nat, cells2 ≠ [] →
      cellsToColumns cells2 0 = Except.error Fault.diverges) ∧
    (∀ (cells2 : List Nat) (cpc2 : Nat), 0 < cpc2 → cells2.length % cpc2 ≠ 0 →
      cellsToColumns cells2 cpc2 = Except.error Fault.outOfRange)) :=
  ⟨by decide, by decide,
    cellsToColumns_safe [0, 0, 0, 0, 1, 1, 0, 0, 1] 3 (by decide) (by decide)⟩

/-- Witness for C25 with `UInt` elements (natural numbers), where 1 differs from 0. -/
theorem sparse_binary_roundtrip_witness :
    NeZero (1 : Nat) ∧
    ((∀ (w : Nat) (s : List Nat), List.Sorted (fun a b => a < b) s → (∀ i ∈ s, i < w) →
      ∃ b : List Nat, sparseToBinary s w = some b ∧ binaryToSparse b = s) ∧
    (∀ b : List Nat, (∀ x ∈ b, x = 0 ∨ x = 1) →
      sparseToBinary (binaryToSparse b) b.length = some b)) :=
  ⟨inferInstance, @sparse_binary_roundtrip Nat _ _ _ _⟩

end nupic
